import Mathlib

/-!
Verification of the SSNMF model (ssnmf/ssnmf.py): a shallow embedding of the
(semi-supervised) non-negative matrix factorization class over exact rational
matrices, with the multiplicative-update training procedures, the constructor
shape validation, and the evaluation functions (accuracy, KL divergence).
Frobenius norms and logarithms, which the reference computes in floating
point, are modelled over the reals; everything else is exact.
-/

namespace SSNMF

/-- Dense matrix with rational entries, indexed by `Fin`. -/
abbrev Mat (m n : ℕ) : Type := Fin m → Fin n → ℚ

/-- Matrix product (numpy `@`). -/
def matMul {m k n : ℕ} (A : Mat m k) (B : Mat k n) : Mat m n :=
  fun i j => ∑ t, A i t * B t j

/-- Transpose (`np.transpose`). -/
def tr {m n : ℕ} (A : Mat m n) : Mat n m := fun i j => A j i

/-- Element-wise (Hadamard) product (`np.multiply`). -/
def had {m n : ℕ} (A B : Mat m n) : Mat m n := fun i j => A i j * B i j

/-- All-ones matrix (`np.ones((p, n))`). -/
def onesM (p n : ℕ) : Mat p n := fun _ _ => 1

/-- `np.multiply(np.divide(M, eps + D), N)`: the shape every multiplicative
update in the reference takes (current value, denominator, numerator). -/
def updE {a b : ℕ} (eps : ℚ) (M D N : Mat a b) : Mat a b :=
  fun i j => M i j / (eps + D i j) * N i j

/-- `np.divide(Y, eps + M)` element-wise. -/
def edivE {a b : ℕ} (eps : ℚ) (Y M : Mat a b) : Mat a b :=
  fun i j => Y i j / (eps + M i j)

/-- Supervision data of a model with `Y` present: the label matrix `Y`, the
classification factor `B`, and the classification weight `lam`. -/
structure SupData (n k p : ℕ) where
  Y : Mat p n
  B : Mat p k
  lam : ℚ

/-- SSNMF model state: data matrix `X`, factors `A` and `S`, optional
supervision (`Y`, `B`, `lam` are all present or all absent, as in the
reference constructor), optional data mask `W`, optional label mask `L`. -/
structure Model (m n k p : ℕ) where
  X : Mat m n
  A : Mat m k
  S : Mat k n
  sup : Option (SupData n k p)
  W : Option (Mat m n)
  L : Option (Mat p n)

/-- One iteration of `SSNMF.mult` (unsupervised): update `A`, then `S` using
the already-updated `A`; each of the two `W` branches follows the source. -/
def multStep {m n k p : ℕ} (eps : ℚ) (md : Model m n k p) : Model m n k p :=
  match md.W with
  | none =>
    let A' := updE eps md.A (matMul (matMul md.A md.S) (tr md.S)) (matMul md.X (tr md.S))
    let S' := updE eps md.S (matMul (matMul (tr A') A') md.S) (matMul (tr A') md.X)
    { md with A := A', S := S' }
  | some W =>
    let A' := updE eps md.A (matMul (had W (matMul md.A md.S)) (tr md.S))
      (matMul (had W md.X) (tr md.S))
    let S' := updE eps md.S (matMul (tr A') (had W (matMul A' md.S)))
      (matMul (tr A') (had W md.X))
    { md with A := A', S := S' }

/-- One iteration of `SSNMF.snmfmult` (Frobenius classification loss): update
`A`, then `B`, then `S` using the already-updated `A` and `B`; the four
`W`/`L` branches follow the source.  A model without supervision is returned
unchanged (the reference raises before its loop ever runs). -/
def snmfStep {m n k p : ℕ} (eps : ℚ) (md : Model m n k p) : Model m n k p :=
  match md.sup with
  | none => md
  | some s =>
    match md.L, md.W with
    | none, none =>
      let A' := updE eps md.A (matMul (matMul md.A md.S) (tr md.S)) (matMul md.X (tr md.S))
      let B' := updE eps s.B (matMul (matMul s.B md.S) (tr md.S)) (matMul s.Y (tr md.S))
      let S' := updE eps md.S
        (matMul (matMul (tr A') A') md.S + s.lam • matMul (matMul (tr B') B') md.S)
        (matMul (tr A') md.X + s.lam • matMul (tr B') s.Y)
      { md with A := A', S := S', sup := some { s with B := B' } }
    | some L, none =>
      let A' := updE eps md.A (matMul (matMul md.A md.S) (tr md.S)) (matMul md.X (tr md.S))
      let B' := updE eps s.B (matMul (had L (matMul s.B md.S)) (tr md.S))
        (matMul (had L s.Y) (tr md.S))
      let S' := updE eps md.S
        (matMul (matMul (tr A') A') md.S + s.lam • matMul (tr B') (had L (matMul B' md.S)))
        (matMul (tr A') md.X + s.lam • matMul (tr B') (had L s.Y))
      { md with A := A', S := S', sup := some { s with B := B' } }
    | none, some W =>
      let A' := updE eps md.A (matMul (had W (matMul md.A md.S)) (tr md.S))
        (matMul (had W md.X) (tr md.S))
      let B' := updE eps s.B (matMul (matMul s.B md.S) (tr md.S)) (matMul s.Y (tr md.S))
      let S' := updE eps md.S
        (matMul (tr A') (had W (matMul A' md.S)) + s.lam • matMul (matMul (tr B') B') md.S)
        (matMul (tr A') (had W md.X) + s.lam • matMul (tr B') s.Y)
      { md with A := A', S := S', sup := some { s with B := B' } }
    | some L, some W =>
      let A' := updE eps md.A (matMul (had W (matMul md.A md.S)) (tr md.S))
        (matMul (had W md.X) (tr md.S))
      let B' := updE eps s.B (matMul (had L (matMul s.B md.S)) (tr md.S))
        (matMul (had L s.Y) (tr md.S))
      let S' := updE eps md.S
        (matMul (tr A') (had W (matMul A' md.S)) + s.lam • matMul (tr B') (had L (matMul B' md.S)))
        (matMul (tr A') (had W md.X) + s.lam • matMul (tr B') (had L s.Y))
      { md with A := A', S := S', sup := some { s with B := B' } }

/-- One iteration of `SSNMF.klsnmfmult` (KL classification loss): update `A`,
then `B` by the KL rule, then `S` using the already-updated `A` and `B`; the
four `W`/`L` branches follow the source.  A model without supervision is
returned unchanged (the reference raises before its loop ever runs). -/
def klStep {m n k p : ℕ} (eps : ℚ) (md : Model m n k p) : Model m n k p :=
  match md.sup with
  | none => md
  | some s =>
    match md.L, md.W with
    | none, none =>
      let A' := updE eps md.A (matMul (matMul md.A md.S) (tr md.S)) (matMul md.X (tr md.S))
      let B' := updE eps s.B (matMul (onesM p n) (tr md.S))
        (matMul (edivE eps s.Y (matMul s.B md.S)) (tr md.S))
      let S' := updE eps md.S
        ((2 : ℚ) • matMul (matMul (tr A') A') md.S + s.lam • matMul (tr B') (onesM p n))
        ((2 : ℚ) • matMul (tr A') md.X + s.lam • matMul (tr B') (edivE eps s.Y (matMul B' md.S)))
      { md with A := A', S := S', sup := some { s with B := B' } }
    | none, some W =>
      let A' := updE eps md.A (matMul (had W (matMul md.A md.S)) (tr md.S))
        (matMul (had W md.X) (tr md.S))
      let B' := updE eps s.B (matMul (onesM p n) (tr md.S))
        (matMul (edivE eps s.Y (matMul s.B md.S)) (tr md.S))
      let S' := updE eps md.S
        ((2 : ℚ) • matMul (tr A') (had W (matMul A' md.S)) + s.lam • matMul (tr B') (onesM p n))
        ((2 : ℚ) • matMul (tr A') (had W md.X) +
          s.lam • matMul (tr B') (edivE eps s.Y (matMul B' md.S)))
      { md with A := A', S := S', sup := some { s with B := B' } }
    | some L, none =>
      let A' := updE eps md.A (matMul (matMul md.A md.S) (tr md.S)) (matMul md.X (tr md.S))
      let B' := updE eps s.B (matMul L (tr md.S))
        (matMul (edivE eps (had L s.Y) (had L (matMul s.B md.S))) (tr md.S))
      let S' := updE eps md.S
        ((2 : ℚ) • matMul (matMul (tr A') A') md.S + s.lam • matMul (tr B') L)
        ((2 : ℚ) • matMul (tr A') md.X +
          s.lam • matMul (tr B') (edivE eps (had L s.Y) (had L (matMul B' md.S))))
      { md with A := A', S := S', sup := some { s with B := B' } }
    | some L, some W =>
      let A' := updE eps md.A (matMul (had W (matMul md.A md.S)) (tr md.S))
        (matMul (had W md.X) (tr md.S))
      let B' := updE eps s.B (matMul L (tr md.S))
        (matMul (edivE eps (had L s.Y) (had L (matMul s.B md.S))) (tr md.S))
      let S' := updE eps md.S
        ((2 : ℚ) • matMul (tr A') (had W (matMul A' md.S)) + s.lam • matMul (tr B') L)
        ((2 : ℚ) • matMul (tr A') (had W md.X) +
          s.lam • matMul (tr B') (edivE eps (had L s.Y) (had L (matMul B' md.S))))
      { md with A := A', S := S', sup := some { s with B := B' } }

/-- Errors a method call can raise: the missing-supervision `Exception` of
`snmfmult`/`klsnmfmult`/`accuracy`/`kldiv`, and Python's `ZeroDivisionError`
from `numacc/num_labels` (or `numacc/numdata`) in `accuracy`. -/
inductive Err where
  | missingSupervision
  | zeroDivision
deriving DecidableEq

/-- Whether an `Except` value is a success. -/
def okB {ε α : Type} : Except ε α → Bool
  | .ok _ => true
  | .error _ => false

/-- Tail of the `np.argmax` scan: fold over the remaining indices, replacing
the current best index only on a strictly larger value (first occurrence of
the maximum wins, as numpy documents). -/
def argmaxGo {p : ℕ} (v : Fin p → ℚ) : List (Fin p) → Fin p → Fin p
  | [], b => b
  | i :: l, b => argmaxGo v l (if v b < v i then i else b)

/-- `np.argmax` over a vector: index of the maximum entry, first occurrence
on ties. -/
def npArgmax {p : ℕ} [NeZero p] (v : Fin p → ℚ) : Fin p :=
  argmaxGo v (List.finRange p) ⟨0, Nat.pos_of_ne_zero (NeZero.ne p)⟩

/-- `SSNMF.accuracy`: per-column comparison of the argmax of the (masked)
label matrix against the argmax of the (masked) prediction `B @ S`.  With `L`
present a column counts toward the numerator only when the matched entry of
`L * Y` is nonzero, and is removed from the denominator when the indices
agree on a zero matched entry; the final integer division raises
`ZeroDivisionError` when the denominator is zero. -/
def accuracy {m n k p : ℕ} [NeZero p] (md : Model m n k p) : Except Err ℚ :=
  match md.sup with
  | none => .error .missingSupervision
  | some s =>
    match md.L with
    | none =>
      let Yh := matMul s.B md.S
      let numacc := (Finset.univ.filter
        (fun i : Fin n => npArgmax (fun r => s.Y r i) = npArgmax (fun r => Yh r i))).card
      if n = 0 then .error .zeroDivision else .ok ((numacc : ℚ) / (n : ℚ))
    | some L =>
      let LY := had L s.Y
      let Yh := had L (matMul s.B md.S)
      let agree := fun i : Fin n =>
        npArgmax (fun r => LY r i) = npArgmax (fun r => Yh r i)
      let numacc := (Finset.univ.filter
        (fun i : Fin n => agree i ∧ LY (npArgmax (fun r => LY r i)) i ≠ 0)).card
      let excl := (Finset.univ.filter
        (fun i : Fin n => agree i ∧ LY (npArgmax (fun r => LY r i)) i = 0)).card
      let numlabels := n - excl
      if numlabels = 0 then .error .zeroDivision
      else .ok ((numacc : ℚ) / (numlabels : ℚ))

/-- The default epsilon `1e-10` used by every method. -/
def defaultEps : ℚ := 1 / 10000000000

/-- Sum of squared entries, so `frobN` below is `np.linalg.norm(·, 'fro')`. -/
def frob2 {a b : ℕ} (M : Mat a b) : ℚ := ∑ i, ∑ j, M i j ^ 2

/-- Frobenius norm, over `ℝ` (the reference computes it in floating point). -/
noncomputable def frobN {a b : ℕ} (M : Mat a b) : ℝ :=
  Real.sqrt ((frob2 M : ℚ) : ℝ)

/-- Per-iteration reconstruction error recorded by the training loops:
`||X - A S||_F`, masked by `W` when present. -/
noncomputable def reconErrM {m n k p : ℕ} (md : Model m n k p) : ℝ :=
  match md.W with
  | none => frobN (md.X - matMul md.A md.S)
  | some W => frobN (had W md.X - had W (matMul md.A md.S))

/-- Per-iteration classification error recorded by `snmfmult`:
`||Y - B S||_F`, masked by `L` when present (`0` without supervision, where
the reference never evaluates it). -/
noncomputable def classErrM {m n k p : ℕ} (md : Model m n k p) : ℝ :=
  match md.sup with
  | none => 0
  | some s =>
    match md.L with
    | none => frobN (s.Y - matMul s.B md.S)
    | some L => frobN (had L s.Y - had L (matMul s.B md.S))

/-- The model's classification weight (`0` without supervision, where the
reference stores `None` and never reads it). -/
def lamM {m n k p : ℕ} (md : Model m n k p) : ℚ :=
  match md.sup with
  | none => 0
  | some s => s.lam

/-- The value of `SSNMF.kldiv` at the default epsilon, as recorded by the
`klsnmfmult` loop (`0` without supervision, where the reference raises
instead). -/
noncomputable def kldivVM {m n k p : ℕ} (md : Model m n k p) : ℝ :=
  match md.sup with
  | none => 0
  | some s =>
    match md.L with
    | none =>
      let Yh := matMul s.B md.S
      ∑ i, ∑ j, ((s.Y i j : ℝ) *
        Real.log (((s.Y i j + defaultEps) / (Yh i j + defaultEps) : ℚ) : ℝ) -
        (s.Y i j : ℝ) + (Yh i j : ℝ))
    | some L =>
      let LY := had L s.Y
      let Yh := had L (matMul s.B md.S)
      ∑ i, ∑ j, ((LY i j : ℝ) *
        Real.log (((LY i j + defaultEps) / (Yh i j + defaultEps) : ℚ) : ℝ) -
        (LY i j : ℝ) + (Yh i j : ℝ))

/-- `SSNMF.kldiv`: the smoothed I-divergence `D(Y || B S)`, with `L * Y` and
`L * (B S)` substituted when `L` is present; raises when `Y` is absent. -/
noncomputable def kldiv {m n k p : ℕ} (md : Model m n k p) (eps : ℚ) : Except Err ℝ :=
  match md.sup with
  | none => .error .missingSupervision
  | some s =>
    match md.L with
    | none =>
      let Yh := matMul s.B md.S
      .ok (∑ i, ∑ j, ((s.Y i j : ℝ) *
        Real.log (((s.Y i j + eps) / (Yh i j + eps) : ℚ) : ℝ) -
        (s.Y i j : ℝ) + (Yh i j : ℝ)))
    | some L =>
      let LY := had L s.Y
      let Yh := had L (matMul s.B md.S)
      .ok (∑ i, ∑ j, ((LY i j : ℝ) *
        Real.log (((LY i j + eps) / (Yh i j + eps) : ℚ) : ℝ) -
        (LY i j : ℝ) + (Yh i j : ℝ)))

/-- The `mult` loop with error recording: iterate `multStep`, consing the
reconstruction error computed after each iteration's updates. -/
noncomputable def multErrs {m n k p : ℕ} (eps : ℚ) :
    ℕ → Model m n k p → Model m n k p × List ℝ
  | 0, md => (md, [])
  | nn + 1, md =>
    let md' := multStep eps md
    let r := multErrs eps nn md'
    (r.1, reconErrM md' :: r.2)

/-- `SSNMF.mult`: `numiters` multiplicative updates; with `saveerrs` it
returns the single reconstruction-error sequence, otherwise nothing. -/
noncomputable def mult {m n k p : ℕ} (md : Model m n k p) (numiters : ℕ)
    (saveerrs : Bool) (eps : ℚ) : Except Err (Model m n k p × Option (List (List ℝ))) :=
  if saveerrs then
    let r := multErrs eps numiters md
    .ok (r.1, some [r.2])
  else .ok ((multStep eps)^[numiters] md, none)

/-- The `snmfmult` loop with error recording: iterate `snmfStep`, consing the
four per-iteration metrics; the per-iteration `accuracy()` call can raise,
which aborts the whole training call. -/
noncomputable def snmfErrs {m n k p : ℕ} [NeZero p] (eps : ℚ) :
    ℕ → Model m n k p → Except Err (Model m n k p × (List ℝ × List ℝ × List ℝ × List ℝ))
  | 0, md => .ok (md, ([], [], [], []))
  | nn + 1, md =>
    let md' := snmfStep eps md
    match accuracy md' with
    | .error e => .error e
    | .ok acc =>
      match snmfErrs eps nn md' with
      | .error e => .error e
      | .ok (mf, (es, rs, cs, ws)) =>
        .ok (mf, ((reconErrM md' ^ 2 + (lamM md' : ℝ) * classErrM md' ^ 2) :: es,
          reconErrM md' :: rs, classErrM md' :: cs, ((acc : ℚ) : ℝ) :: ws))

/-- `SSNMF.snmfmult`: raises without supervision; otherwise `numiters`
multiplicative updates, with the four metric sequences (combined objective,
reconstruction error, classification error, classification accuracy) when
`saveerrs` is set and nothing otherwise. -/
noncomputable def snmfmult {m n k p : ℕ} [NeZero p] (md : Model m n k p) (numiters : ℕ)
    (saveerrs : Bool) (eps : ℚ) : Except Err (Model m n k p × Option (List (List ℝ))) :=
  match md.sup with
  | none => .error .missingSupervision
  | some _ =>
    if saveerrs then
      (snmfErrs eps numiters md).map
        (fun r => (r.1, some [r.2.1, r.2.2.1, r.2.2.2.1, r.2.2.2.2]))
    else .ok ((snmfStep eps)^[numiters] md, none)

/-- The `klsnmfmult` loop with error recording: iterate `klStep`, consing the
four per-iteration metrics (the divergence is `kldiv()` at its default
epsilon); the per-iteration `accuracy()` call can raise, which aborts the
whole training call. -/
noncomputable def klErrs {m n k p : ℕ} [NeZero p] (eps : ℚ) :
    ℕ → Model m n k p → Except Err (Model m n k p × (List ℝ × List ℝ × List ℝ × List ℝ))
  | 0, md => .ok (md, ([], [], [], []))
  | nn + 1, md =>
    let md' := klStep eps md
    match accuracy md' with
    | .error e => .error e
    | .ok acc =>
      match klErrs eps nn md' with
      | .error e => .error e
      | .ok (mf, (es, rs, cs, ws)) =>
        .ok (mf, ((reconErrM md' ^ 2 + (lamM md' : ℝ) * kldivVM md') :: es,
          reconErrM md' :: rs, kldivVM md' :: cs, ((acc : ℚ) : ℝ) :: ws))

/-- `SSNMF.klsnmfmult`: raises without supervision; otherwise `numiters`
multiplicative updates, with the four metric sequences (combined objective,
reconstruction error, divergence, classification accuracy) when `saveerrs`
is set and nothing otherwise. -/
noncomputable def klsnmfmult {m n k p : ℕ} [NeZero p] (md : Model m n k p) (numiters : ℕ)
    (saveerrs : Bool) (eps : ℚ) : Except Err (Model m n k p × Option (List (List ℝ))) :=
  match md.sup with
  | none => .error .missingSupervision
  | some _ =>
    if saveerrs then
      (klErrs eps numiters md).map
        (fun r => (r.1, some [r.2.1, r.2.2.1, r.2.2.2.1, r.2.2.2.2]))
    else .ok ((klStep eps)^[numiters] md, none)

/-- Untyped matrix (shape plus entries), for the constructor's shape
validation, where mismatched shapes must be representable. -/
structure RawMat where
  r : ℕ
  c : ℕ
  ent : ℕ → ℕ → ℚ

/-- Stand-in for `np.random.rand(r, c)`: a matrix of the requested shape
(only the shape matters to the constructor's checks; the reference fills it
with uniform random entries in `[0, 1)`). -/
def randMat (r c : ℕ) : RawMat := ⟨r, c, fun _ _ => 1 / 2⟩

/-- How construction can fail: the explicit dimension-mismatch `Exception`s
of `__init__`, or the `IndexError` from evaluating `np.shape(None)[0]` when
`L` is supplied while `Y` is absent. -/
inductive CErr where
  | dimensionMismatch (msg : String)
  | indexError
deriving DecidableEq

/-- The model record `__init__` builds on success. -/
structure RawModel where
  X : RawMat
  A : RawMat
  S : RawMat
  Y : Option RawMat
  B : Option RawMat
  lam : Option ℚ
  W : Option RawMat
  L : Option RawMat

/-- The `L` checks of `__init__`, in source order: comparing `L` against the
shape of `Y` when `Y` is `None` evaluates `np.shape(None)[0]`, an
`IndexError`. -/
def lCheck (Y? L? : Option RawMat) : Option CErr :=
  match L? with
  | none => none
  | some L =>
    match Y? with
    | none => some .indexError
    | some Y =>
      if L.r ≠ Y.r then some (.dimensionMismatch "The row dimensions of Y and L are not equal.")
      else if L.c ≠ Y.c then
        some (.dimensionMismatch "The column dimensions of Y and L are not equal.")
      else none

/-- The `W` checks of `__init__`, in source order, followed by the `L`
checks. -/
def wlCheck (X : RawMat) (Y? W? L? : Option RawMat) : Option CErr :=
  match W? with
  | none => lCheck Y? L?
  | some W =>
    if W.r ≠ X.r then some (.dimensionMismatch "The row dimensions of X and W are not equal.")
    else if W.c ≠ X.c then
      some (.dimensionMismatch "The column dimensions of X and W are not equal.")
    else lCheck Y? L?

/-- All shape checks of `__init__`, in source order, on the resolved
(supplied-or-defaulted) factor matrices. -/
def initCheck (X : RawMat) (k : ℕ) (A? S? Y? B? W? L? : Option RawMat) : Option CErr :=
  let A := A?.getD (randMat X.r k)
  let S := S?.getD (randMat k X.c)
  if X.r ≠ A.r then some (.dimensionMismatch "The row dimensions of X and A are not equal.")
  else if X.c ≠ S.c then
    some (.dimensionMismatch "The column dimensions of X and S are not equal.")
  else if A.c ≠ k then
    some (.dimensionMismatch "The column dimension of A is not equal to the input number of topics.")
  else if S.r ≠ k then
    some (.dimensionMismatch "The row dimension of S is not equal to the input number of topics.")
  else
    match Y? with
    | none => wlCheck X Y? W? L?
    | some Y =>
      if Y.c ≠ X.c then
        some (.dimensionMismatch "The column dimensions of X and Y are not equal.")
      else
        let B := B?.getD (randMat Y.r k)
        if B.r ≠ Y.r then
          some (.dimensionMismatch "The row dimensions of Y and B are not equal.")
        else if B.c ≠ k then
          some (.dimensionMismatch "The column dimension of B is not equal to the input number of topics.")
        else wlCheck X Y? W? L?

/-- `SSNMF.__init__`: validate shapes; on success return the model with
defaulted factors, `lam` defaulting to `1` when `Y` is present, and `B`
(like `lam`) absent when `Y` is absent. -/
def init (X : RawMat) (k : ℕ) (A? S? Y? B? W? L? : Option RawMat) (lam? : Option ℚ) :
    Except CErr RawModel :=
  match initCheck X k A? S? Y? B? W? L? with
  | some e => .error e
  | none =>
    .ok { X := X, A := A?.getD (randMat X.r k), S := S?.getD (randMat k X.c), Y := Y?,
          B := match Y? with | some Y => some (B?.getD (randMat Y.r k)) | none => none,
          lam := match Y? with | some _ => some (lam?.getD 1) | none => none,
          W := W?, L := L? }

/-- The shape invariants of the specification, as one boolean over the same
resolved inputs: factor shapes against `X` and `k`, supervision shapes when
`Y` is present, mask shapes, and the requirement that `L` implies `Y`. -/
def shapesOkB (X : RawMat) (k : ℕ) (A? S? Y? B? W? L? : Option RawMat) : Bool :=
  let A := A?.getD (randMat X.r k)
  let S := S?.getD (randMat k X.c)
  (X.r == A.r) && (X.c == S.c) && (A.c == k) && (S.r == k) &&
  (match Y? with
   | some Y => (Y.c == X.c) &&
      (let B := B?.getD (randMat Y.r k); (B.r == Y.r) && (B.c == k))
   | none => true) &&
  (match W? with
   | some W => (W.r == X.r) && (W.c == X.c)
   | none => true) &&
  (match L? with
   | some L =>
     match Y? with
     | some Y => (L.r == Y.r) && (L.c == Y.c)
     | none => false
   | none => true)

/-- The three training procedures, for running them in any combination. -/
inductive Proc where
  | multP
  | snmfP
  | klP

/-- One iteration of the chosen procedure (a supervised procedure on an
unsupervised model raises before updating, leaving the state unchanged). -/
def procStep {m n k p : ℕ} (eps : ℚ) : Proc → Model m n k p → Model m n k p
  | .multP => multStep eps
  | .snmfP => snmfStep eps
  | .klP => klStep eps

/-- Run a sequence of single iterations of chosen procedures. -/
def runProcs {m n k p : ℕ} (eps : ℚ) (l : List Proc) (md : Model m n k p) : Model m n k p :=
  l.foldl (fun md pr => procStep eps pr md) md

/-- Every entry of a matrix is non-negative. -/
def MNN {a b : ℕ} (M : Mat a b) : Prop := ∀ i j, 0 ≤ M i j

instance {a b : ℕ} (M : Mat a b) : Decidable (MNN M) :=
  inferInstanceAs (Decidable (∀ i j, 0 ≤ M i j))

/-- Non-negativity of an optional matrix (trivially true when absent). -/
def optNN {a b : ℕ} : Option (Mat a b) → Prop
  | none => True
  | some M => MNN M

instance {a b : ℕ} : (o : Option (Mat a b)) → Decidable (optNN o)
  | none => isTrue trivial
  | some M => inferInstanceAs (Decidable (MNN M))

/-- Non-negativity of the immutable supervision inputs: label matrix and
classification weight. -/
def supInputsNN {n k p : ℕ} : Option (SupData n k p) → Prop
  | none => True
  | some s => MNN s.Y ∧ 0 ≤ s.lam

instance {n k p : ℕ} : (o : Option (SupData n k p)) → Decidable (supInputsNN o)
  | none => isTrue trivial
  | some s => inferInstanceAs (Decidable (MNN s.Y ∧ 0 ≤ s.lam))

/-- Non-negativity of the classification factor `B` when present. -/
def supBNN {n k p : ℕ} : Option (SupData n k p) → Prop
  | none => True
  | some s => MNN s.B

instance {n k p : ℕ} : (o : Option (SupData n k p)) → Decidable (supBNN o)
  | none => isTrue trivial
  | some s => inferInstanceAs (Decidable (MNN s.B))

/-- Non-negativity of every immutable input of the model: `X`, `Y`, `lam`,
`W`, `L`. -/
def InputsNN {m n k p : ℕ} (md : Model m n k p) : Prop :=
  MNN md.X ∧ supInputsNN md.sup ∧ optNN md.W ∧ optNN md.L

instance {m n k p : ℕ} (md : Model m n k p) : Decidable (InputsNN md) :=
  inferInstanceAs (Decidable (MNN md.X ∧ supInputsNN md.sup ∧ optNN md.W ∧ optNN md.L))

/-- Non-negativity of every mutable factor of the model: `A`, `S`, `B`. -/
def FactorsNN {m n k p : ℕ} (md : Model m n k p) : Prop :=
  MNN md.A ∧ MNN md.S ∧ supBNN md.sup

instance {m n k p : ℕ} (md : Model m n k p) : Decidable (FactorsNN md) :=
  inferInstanceAs (Decidable (MNN md.A ∧ MNN md.S ∧ supBNN md.sup))

lemma MNN_matMul {m k n : ℕ} {A : Mat m k} {B : Mat k n} (hA : MNN A) (hB : MNN B) :
    MNN (matMul A B) :=
  fun i j => Finset.sum_nonneg fun t _ => mul_nonneg (hA i t) (hB t j)

lemma MNN_tr {m n : ℕ} {A : Mat m n} (hA : MNN A) : MNN (tr A) := fun i j => hA j i

lemma MNN_had {m n : ℕ} {A B : Mat m n} (hA : MNN A) (hB : MNN B) : MNN (had A B) :=
  fun i j => mul_nonneg (hA i j) (hB i j)

lemma MNN_onesM {p n : ℕ} : MNN (onesM p n) := fun _ _ => zero_le_one

lemma MNN_add {m n : ℕ} {A B : Mat m n} (hA : MNN A) (hB : MNN B) : MNN (A + B) :=
  fun i j => add_nonneg (hA i j) (hB i j)

lemma MNN_smul {m n : ℕ} {c : ℚ} {A : Mat m n} (hc : 0 ≤ c) (hA : MNN A) : MNN (c • A) := by
  intro i j
  have he : (c • A) i j = c * A i j := rfl
  rw [he]
  exact mul_nonneg hc (hA i j)

lemma MNN_updE {a b : ℕ} {eps : ℚ} {M D N : Mat a b} (heps : 0 ≤ eps)
    (hM : MNN M) (hD : MNN D) (hN : MNN N) : MNN (updE eps M D N) :=
  fun i j => mul_nonneg (div_nonneg (hM i j) (add_nonneg heps (hD i j))) (hN i j)

lemma MNN_edivE {a b : ℕ} {eps : ℚ} {Y M : Mat a b} (heps : 0 ≤ eps)
    (hY : MNN Y) (hM : MNN M) : MNN (edivE eps Y M) :=
  fun i j => div_nonneg (hY i j) (add_nonneg heps (hM i j))

/-- One `mult` iteration preserves non-negativity of inputs and factors. -/
lemma multStep_NN {m n k p : ℕ} {eps : ℚ} (heps : 0 ≤ eps) (md : Model m n k p)
    (hI : InputsNN md) (hF : FactorsNN md) :
    InputsNN (multStep eps md) ∧ FactorsNN (multStep eps md) := by
  obtain ⟨X, A, S, sup, W, L⟩ := md
  obtain ⟨hX, hsup, hW, hL⟩ := hI
  obtain ⟨hA, hS, hB⟩ := hF
  cases W with
  | none =>
    have hA' : MNN (updE eps A (matMul (matMul A S) (tr S)) (matMul X (tr S))) :=
      MNN_updE heps hA (MNN_matMul (MNN_matMul hA hS) (MNN_tr hS)) (MNN_matMul hX (MNN_tr hS))
    exact ⟨⟨hX, hsup, trivial, hL⟩, hA',
      MNN_updE heps hS (MNN_matMul (MNN_matMul (MNN_tr hA') hA') hS)
        (MNN_matMul (MNN_tr hA') hX), hB⟩
  | some W =>
    have hWm : MNN W := hW
    have hA' : MNN (updE eps A (matMul (had W (matMul A S)) (tr S))
        (matMul (had W X) (tr S))) :=
      MNN_updE heps hA (MNN_matMul (MNN_had hWm (MNN_matMul hA hS)) (MNN_tr hS))
        (MNN_matMul (MNN_had hWm hX) (MNN_tr hS))
    exact ⟨⟨hX, hsup, hWm, hL⟩, hA',
      MNN_updE heps hS (MNN_matMul (MNN_tr hA') (MNN_had hWm (MNN_matMul hA' hS)))
        (MNN_matMul (MNN_tr hA') (MNN_had hWm hX)), hB⟩

/-- One `snmfmult` iteration preserves non-negativity of inputs and factors. -/
lemma snmfStep_NN {m n k p : ℕ} {eps : ℚ} (heps : 0 ≤ eps) (md : Model m n k p)
    (hI : InputsNN md) (hF : FactorsNN md) :
    InputsNN (snmfStep eps md) ∧ FactorsNN (snmfStep eps md) := by
  obtain ⟨X, A, S, sup, W, L⟩ := md
  obtain ⟨hX, hsup, hW, hL⟩ := hI
  obtain ⟨hA, hS, hB⟩ := hF
  cases sup with
  | none => exact ⟨⟨hX, trivial, hW, hL⟩, hA, hS, trivial⟩
  | some s =>
    obtain ⟨Y, B, lam⟩ := s
    obtain ⟨hY, hlam⟩ := hsup
    have hBm : MNN B := hB
    cases L with
    | none =>
      cases W with
      | none =>
        have hA' : MNN (updE eps A (matMul (matMul A S) (tr S)) (matMul X (tr S))) :=
          MNN_updE heps hA (MNN_matMul (MNN_matMul hA hS) (MNN_tr hS))
            (MNN_matMul hX (MNN_tr hS))
        have hB' : MNN (updE eps B (matMul (matMul B S) (tr S)) (matMul Y (tr S))) :=
          MNN_updE heps hBm (MNN_matMul (MNN_matMul hBm hS) (MNN_tr hS))
            (MNN_matMul hY (MNN_tr hS))
        exact ⟨⟨hX, ⟨hY, hlam⟩, trivial, trivial⟩, hA',
          MNN_updE heps hS
            (MNN_add (MNN_matMul (MNN_matMul (MNN_tr hA') hA') hS)
              (MNN_smul hlam (MNN_matMul (MNN_matMul (MNN_tr hB') hB') hS)))
            (MNN_add (MNN_matMul (MNN_tr hA') hX)
              (MNN_smul hlam (MNN_matMul (MNN_tr hB') hY))), hB'⟩
      | some W =>
        have hWm : MNN W := hW
        have hA' : MNN (updE eps A (matMul (had W (matMul A S)) (tr S))
            (matMul (had W X) (tr S))) :=
          MNN_updE heps hA (MNN_matMul (MNN_had hWm (MNN_matMul hA hS)) (MNN_tr hS))
            (MNN_matMul (MNN_had hWm hX) (MNN_tr hS))
        have hB' : MNN (updE eps B (matMul (matMul B S) (tr S)) (matMul Y (tr S))) :=
          MNN_updE heps hBm (MNN_matMul (MNN_matMul hBm hS) (MNN_tr hS))
            (MNN_matMul hY (MNN_tr hS))
        exact ⟨⟨hX, ⟨hY, hlam⟩, hWm, trivial⟩, hA',
          MNN_updE heps hS
            (MNN_add (MNN_matMul (MNN_tr hA') (MNN_had hWm (MNN_matMul hA' hS)))
              (MNN_smul hlam (MNN_matMul (MNN_matMul (MNN_tr hB') hB') hS)))
            (MNN_add (MNN_matMul (MNN_tr hA') (MNN_had hWm hX))
              (MNN_smul hlam (MNN_matMul (MNN_tr hB') hY))), hB'⟩
    | some L =>
      have hLm : MNN L := hL
      cases W with
      | none =>
        have hA' : MNN (updE eps A (matMul (matMul A S) (tr S)) (matMul X (tr S))) :=
          MNN_updE heps hA (MNN_matMul (MNN_matMul hA hS) (MNN_tr hS))
            (MNN_matMul hX (MNN_tr hS))
        have hB' : MNN (updE eps B (matMul (had L (matMul B S)) (tr S))
            (matMul (had L Y) (tr S))) :=
          MNN_updE heps hBm (MNN_matMul (MNN_had hLm (MNN_matMul hBm hS)) (MNN_tr hS))
            (MNN_matMul (MNN_had hLm hY) (MNN_tr hS))
        exact ⟨⟨hX, ⟨hY, hlam⟩, trivial, hLm⟩, hA',
          MNN_updE heps hS
            (MNN_add (MNN_matMul (MNN_matMul (MNN_tr hA') hA') hS)
              (MNN_smul hlam (MNN_matMul (MNN_tr hB') (MNN_had hLm (MNN_matMul hB' hS)))))
            (MNN_add (MNN_matMul (MNN_tr hA') hX)
              (MNN_smul hlam (MNN_matMul (MNN_tr hB') (MNN_had hLm hY)))), hB'⟩
      | some W =>
        have hWm : MNN W := hW
        have hA' : MNN (updE eps A (matMul (had W (matMul A S)) (tr S))
            (matMul (had W X) (tr S))) :=
          MNN_updE heps hA (MNN_matMul (MNN_had hWm (MNN_matMul hA hS)) (MNN_tr hS))
            (MNN_matMul (MNN_had hWm hX) (MNN_tr hS))
        have hB' : MNN (updE eps B (matMul (had L (matMul B S)) (tr S))
            (matMul (had L Y) (tr S))) :=
          MNN_updE heps hBm (MNN_matMul (MNN_had hLm (MNN_matMul hBm hS)) (MNN_tr hS))
            (MNN_matMul (MNN_had hLm hY) (MNN_tr hS))
        exact ⟨⟨hX, ⟨hY, hlam⟩, hWm, hLm⟩, hA',
          MNN_updE heps hS
            (MNN_add (MNN_matMul (MNN_tr hA') (MNN_had hWm (MNN_matMul hA' hS)))
              (MNN_smul hlam (MNN_matMul (MNN_tr hB') (MNN_had hLm (MNN_matMul hB' hS)))))
            (MNN_add (MNN_matMul (MNN_tr hA') (MNN_had hWm hX))
              (MNN_smul hlam (MNN_matMul (MNN_tr hB') (MNN_had hLm hY)))), hB'⟩

/-- One `klsnmfmult` iteration preserves non-negativity of inputs and
factors. -/
lemma klStep_NN {m n k p : ℕ} {eps : ℚ} (heps : 0 ≤ eps) (md : Model m n k p)
    (hI : InputsNN md) (hF : FactorsNN md) :
    InputsNN (klStep eps md) ∧ FactorsNN (klStep eps md) := by
  obtain ⟨X, A, S, sup, W, L⟩ := md
  obtain ⟨hX, hsup, hW, hL⟩ := hI
  obtain ⟨hA, hS, hB⟩ := hF
  cases sup with
  | none => exact ⟨⟨hX, trivial, hW, hL⟩, hA, hS, trivial⟩
  | some s =>
    obtain ⟨Y, B, lam⟩ := s
    obtain ⟨hY, hlam⟩ := hsup
    have hBm : MNN B := hB
    have h2 : (0 : ℚ) ≤ 2 := by norm_num
    cases L with
    | none =>
      have hB' : MNN (updE eps B (matMul (onesM p n) (tr S))
          (matMul (edivE eps Y (matMul B S)) (tr S))) :=
        MNN_updE heps hBm (MNN_matMul MNN_onesM (MNN_tr hS))
          (MNN_matMul (MNN_edivE heps hY (MNN_matMul hBm hS)) (MNN_tr hS))
      cases W with
      | none =>
        have hA' : MNN (updE eps A (matMul (matMul A S) (tr S)) (matMul X (tr S))) :=
          MNN_updE heps hA (MNN_matMul (MNN_matMul hA hS) (MNN_tr hS))
            (MNN_matMul hX (MNN_tr hS))
        exact ⟨⟨hX, ⟨hY, hlam⟩, trivial, trivial⟩, hA',
          MNN_updE heps hS
            (MNN_add (MNN_smul h2 (MNN_matMul (MNN_matMul (MNN_tr hA') hA') hS))
              (MNN_smul hlam (MNN_matMul (MNN_tr hB') MNN_onesM)))
            (MNN_add (MNN_smul h2 (MNN_matMul (MNN_tr hA') hX))
              (MNN_smul hlam (MNN_matMul (MNN_tr hB')
                (MNN_edivE heps hY (MNN_matMul hB' hS))))), hB'⟩
      | some W =>
        have hWm : MNN W := hW
        have hA' : MNN (updE eps A (matMul (had W (matMul A S)) (tr S))
            (matMul (had W X) (tr S))) :=
          MNN_updE heps hA (MNN_matMul (MNN_had hWm (MNN_matMul hA hS)) (MNN_tr hS))
            (MNN_matMul (MNN_had hWm hX) (MNN_tr hS))
        exact ⟨⟨hX, ⟨hY, hlam⟩, hWm, trivial⟩, hA',
          MNN_updE heps hS
            (MNN_add (MNN_smul h2 (MNN_matMul (MNN_tr hA') (MNN_had hWm (MNN_matMul hA' hS))))
              (MNN_smul hlam (MNN_matMul (MNN_tr hB') MNN_onesM)))
            (MNN_add (MNN_smul h2 (MNN_matMul (MNN_tr hA') (MNN_had hWm hX)))
              (MNN_smul hlam (MNN_matMul (MNN_tr hB')
                (MNN_edivE heps hY (MNN_matMul hB' hS))))), hB'⟩
    | some L =>
      have hLm : MNN L := hL
      have hB' : MNN (updE eps B (matMul L (tr S))
          (matMul (edivE eps (had L Y) (had L (matMul B S))) (tr S))) :=
        MNN_updE heps hBm (MNN_matMul hLm (MNN_tr hS))
          (MNN_matMul (MNN_edivE heps (MNN_had hLm hY) (MNN_had hLm (MNN_matMul hBm hS)))
            (MNN_tr hS))
      cases W with
      | none =>
        have hA' : MNN (updE eps A (matMul (matMul A S) (tr S)) (matMul X (tr S))) :=
          MNN_updE heps hA (MNN_matMul (MNN_matMul hA hS) (MNN_tr hS))
            (MNN_matMul hX (MNN_tr hS))
        exact ⟨⟨hX, ⟨hY, hlam⟩, trivial, hLm⟩, hA',
          MNN_updE heps hS
            (MNN_add (MNN_smul h2 (MNN_matMul (MNN_matMul (MNN_tr hA') hA') hS))
              (MNN_smul hlam (MNN_matMul (MNN_tr hB') hLm)))
            (MNN_add (MNN_smul h2 (MNN_matMul (MNN_tr hA') hX))
              (MNN_smul hlam (MNN_matMul (MNN_tr hB')
                (MNN_edivE heps (MNN_had hLm hY) (MNN_had hLm (MNN_matMul hB' hS)))))), hB'⟩
      | some W =>
        have hWm : MNN W := hW
        have hA' : MNN (updE eps A (matMul (had W (matMul A S)) (tr S))
            (matMul (had W X) (tr S))) :=
          MNN_updE heps hA (MNN_matMul (MNN_had hWm (MNN_matMul hA hS)) (MNN_tr hS))
            (MNN_matMul (MNN_had hWm hX) (MNN_tr hS))
        exact ⟨⟨hX, ⟨hY, hlam⟩, hWm, hLm⟩, hA',
          MNN_updE heps hS
            (MNN_add (MNN_smul h2 (MNN_matMul (MNN_tr hA') (MNN_had hWm (MNN_matMul hA' hS))))
              (MNN_smul hlam (MNN_matMul (MNN_tr hB') hLm)))
            (MNN_add (MNN_smul h2 (MNN_matMul (MNN_tr hA') (MNN_had hWm hX)))
              (MNN_smul hlam (MNN_matMul (MNN_tr hB')
                (MNN_edivE heps (MNN_had hLm hY) (MNN_had hLm (MNN_matMul hB' hS)))))), hB'⟩

/-- Any single iteration of any procedure preserves non-negativity. -/
lemma procStep_NN {m n k p : ℕ} {eps : ℚ} (heps : 0 ≤ eps) (pr : Proc) (md : Model m n k p)
    (hI : InputsNN md) (hF : FactorsNN md) :
    InputsNN (procStep eps pr md) ∧ FactorsNN (procStep eps pr md) := by
  cases pr with
  | multP => exact multStep_NN heps md hI hF
  | snmfP => exact snmfStep_NN heps md hI hF
  | klP => exact klStep_NN heps md hI hF

lemma runProcs_NN {m n k p : ℕ} {eps : ℚ} (heps : 0 ≤ eps) (l : List Proc) :
    ∀ md : Model m n k p, InputsNN md → FactorsNN md →
      InputsNN (runProcs eps l md) ∧ FactorsNN (runProcs eps l md) := by
  induction l with
  | nil => exact fun md hI hF => ⟨hI, hF⟩
  | cons pr l ih =>
    intro md hI hF
    have h := procStep_NN heps pr md hI hF
    exact ih (procStep eps pr md) h.1 h.2

/-- C1: for every model with non-negative `X`, `Y`, `W`, `L`, `lam` and
non-negative initial `A`, `S`, `B`, after any number of iterations of any of
the three training procedures (in any combination of `W`/`L` branches, i.e.
for arbitrary optional masks), every entry of `A`, `S`, and `B` remains
non-negative. -/
theorem training_preserves_nonnegativity {m n k p : ℕ} {eps : ℚ} (heps : 0 ≤ eps)
    (l : List Proc) (md : Model m n k p) (hI : InputsNN md) (hF : FactorsNN md) :
    FactorsNN (runProcs eps l md) :=
  (runProcs_NN heps l md hI hF).2

/-- A concrete all-ones supervised model with both masks present. -/
def mdlOnes : Model 1 1 1 1 :=
  { X := fun _ _ => 1, A := fun _ _ => 1, S := fun _ _ => 1,
    sup := some { Y := fun _ _ => 1, B := fun _ _ => 1, lam := 1 },
    W := some (fun _ _ => 1), L := some (fun _ _ => 1) }

/-- Witness for C1 at a concrete model and a concrete procedure sequence. -/
theorem training_preserves_nonnegativity_witness :
    FactorsNN (runProcs 1 [Proc.multP, Proc.snmfP, Proc.klP] mdlOnes) :=
  training_preserves_nonnegativity (by norm_num) [Proc.multP, Proc.snmfP, Proc.klP]
    mdlOnes (by decide) (by decide)

lemma matMul_assoc {a b c d : ℕ} (A : Mat a b) (B : Mat b c) (C : Mat c d) :
    matMul (matMul A B) C = matMul A (matMul B C) := by
  funext i j
  simp only [matMul, Finset.sum_mul, Finset.mul_sum, mul_assoc]
  exact Finset.sum_comm

lemma updE_apply_spec {a b : ℕ} (eps : ℚ) (M D N : Mat a b) (i : Fin a) (j : Fin b) :
    updE eps M D N i j = M i j * N i j / (eps + D i j) := by
  simp [updE, div_mul_eq_mul_div]

/-- Apply a mask element-wise when it is present (specification side). -/
def wrap {a b : ℕ} : Option (Mat a b) → Mat a b → Mat a b
  | none, M => M
  | some W, M => had W M

/-- Specification form of the `A` update: `A * ([W.*]X S^t) / (eps + ([W.*](A S)) S^t)`,
with `W` wrapping exactly `A S` and `X` where they multiply against `S^t`. -/
def aUpdateSpec {m n k : ℕ} (eps : ℚ) (W? : Option (Mat m n)) (A : Mat m k) (S : Mat k n)
    (X : Mat m n) : Mat m k :=
  fun i j => A i j * matMul (wrap W? X) (tr S) i j /
    (eps + matMul (wrap W? (matMul A S)) (tr S) i j)

/-- Specification form of the Frobenius `B` update: like the `A` update with
`Y`, `B`, `L` in place of `X`, `A`, `W`. -/
def bUpdateSpecF {n k p : ℕ} (eps : ℚ) (L? : Option (Mat p n)) (B : Mat p k) (S : Mat k n)
    (Y : Mat p n) : Mat p k :=
  fun i j => B i j * matMul (wrap L? Y) (tr S) i j /
    (eps + matMul (wrap L? (matMul B S)) (tr S) i j)

/-- Specification form of the `snmfmult` `S` update (claim C2):
`S * (A^t X + lam B^t Y) / (eps + A^t A S + lam B^t B S)`, where `W` wraps
exactly `A S` and `X` at the point they multiply against `A^t`, and `L`
wraps exactly `B S` and `Y` at the point they multiply against `B^t`. -/
def sUpdateSpec {m n k p : ℕ} (eps lam : ℚ) (W? : Option (Mat m n)) (L? : Option (Mat p n))
    (A : Mat m k) (B : Mat p k) (S : Mat k n) (X : Mat m n) (Y : Mat p n) : Mat k n :=
  fun i j => S i j *
    (matMul (tr A) (wrap W? X) + lam • matMul (tr B) (wrap L? Y)) i j /
    (eps + (matMul (tr A) (wrap W? (matMul A S)) +
      lam • matMul (tr B) (wrap L? (matMul B S))) i j)

/-- C2: with supervision present, one `snmfmult` iteration updates `A` first
(from the old state), then `B` (from the old `B` and `S`), then `S` from the
already-updated `A` and `B` by the masked formula
`S * (A^t X + lam B^t Y) / (eps + A^t A S + lam B^t B S)`, with `W` wrapping
exactly `A S` and `X` and `L` wrapping exactly `B S` and `Y` at the point
they multiply against the transpose, in all four mask branches (the masks
are arbitrary optional matrices). -/
theorem snmfStep_update_formulas {m n k p : ℕ} (eps : ℚ) (md : Model m n k p)
    (s : SupData n k p) (hs : md.sup = some s) :
    ∃ s', (snmfStep eps md).sup = some s' ∧ s'.Y = s.Y ∧ s'.lam = s.lam ∧
      (snmfStep eps md).A = aUpdateSpec eps md.W md.A md.S md.X ∧
      s'.B = bUpdateSpecF eps md.L s.B md.S s.Y ∧
      (snmfStep eps md).S = sUpdateSpec eps s.lam md.W md.L
        ((snmfStep eps md).A) s'.B md.S md.X s.Y := by
  obtain ⟨X, A, S, sup, W, L⟩ := md
  have hs' : sup = some s := hs
  subst hs'
  obtain ⟨Y, B, lam⟩ := s
  cases L <;> cases W <;>
    refine ⟨_, rfl, rfl, rfl, ?_, ?_, ?_⟩ <;>
    funext i j <;>
    simp only [snmfStep, updE, aUpdateSpec, bUpdateSpecF, sUpdateSpec, wrap, matMul_assoc,
      div_mul_eq_mul_div]

/-- A concrete supervised model with both masks present (entries 1, mask
entries 1, lam 2), for witnesses. -/
def mdlSup : Model 1 1 1 1 :=
  { X := fun _ _ => 1, A := fun _ _ => 1, S := fun _ _ => 1,
    sup := some { Y := fun _ _ => 1, B := fun _ _ => 1, lam := 2 },
    W := some (fun _ _ => 1), L := some (fun _ _ => 1) }

/-- Witness for C2 at a concrete supervised model. -/
theorem snmfStep_update_formulas_witness :
    ∃ s', (snmfStep 1 mdlSup).sup = some s' ∧
      s'.Y = (fun _ _ => 1) ∧ s'.lam = 2 ∧
      (snmfStep 1 mdlSup).A = aUpdateSpec 1 mdlSup.W mdlSup.A mdlSup.S mdlSup.X ∧
      s'.B = bUpdateSpecF 1 mdlSup.L (fun _ _ => 1) mdlSup.S (fun _ _ => 1) ∧
      (snmfStep 1 mdlSup).S = sUpdateSpec 1 2 mdlSup.W mdlSup.L
        ((snmfStep 1 mdlSup).A) s'.B mdlSup.S mdlSup.X (fun _ _ => 1) :=
  snmfStep_update_formulas 1 mdlSup { Y := fun _ _ => 1, B := fun _ _ => 1, lam := 2 } rfl

/-- Denominator mask of the KL updates: `ones((p, n))` without `L`, and `L`
in its place when present. -/
def klMaskDen {p n : ℕ} : Option (Mat p n) → Mat p n
  | none => onesM p n
  | some L => L

/-- The `Y / (eps + B S)` term of the KL updates; with `L` present it becomes
`(L .* Y) / (eps + L .* (B S))`. -/
def klYTerm {p n : ℕ} (eps : ℚ) (L? : Option (Mat p n)) (Y BS : Mat p n) : Mat p n :=
  match L? with
  | none => edivE eps Y BS
  | some L => edivE eps (had L Y) (had L BS)

/-- Specification form of the KL `B` update (claim C3):
`B * ((Y/(eps+BS)) S^t) / (eps + ones(p,n) S^t)`, with `L` replacing the
ones matrix and masking the `Y/(eps+BS)` term when present. -/
def bUpdateSpecKL {n k p : ℕ} (eps : ℚ) (L? : Option (Mat p n)) (B : Mat p k) (S : Mat k n)
    (Y : Mat p n) : Mat p k :=
  fun i j => B i j * matMul (klYTerm eps L? Y (matMul B S)) (tr S) i j /
    (eps + matMul (klMaskDen L?) (tr S) i j)

/-- Specification form of the KL `S` update (claim C3):
`S * (2 A^t X + lam B^t (Y/(eps+BS))) / (eps + 2 A^t A S + lam B^t ones(p,n))`,
with `L` replacing the ones matrix and masking the `Y/(eps+BS)` term when
present, and `W` wrapping `A S` and `X` in the reconstruction terms. -/
def sUpdateSpecKL {m n k p : ℕ} (eps lam : ℚ) (W? : Option (Mat m n)) (L? : Option (Mat p n))
    (A : Mat m k) (B : Mat p k) (S : Mat k n) (X : Mat m n) (Y : Mat p n) : Mat k n :=
  fun i j => S i j *
    ((2 : ℚ) • matMul (tr A) (wrap W? X) +
      lam • matMul (tr B) (klYTerm eps L? Y (matMul B S))) i j /
    (eps + ((2 : ℚ) • matMul (tr A) (wrap W? (matMul A S)) +
      lam • matMul (tr B) (klMaskDen L?)) i j)

/-- C3: with supervision present, one `klsnmfmult` iteration updates `A` by
the `W`-wrapped multiplicative rule, `B` by the KL rule
`B * ((Y/(eps+BS)) S^t) / (eps + ones(p,n) S^t)` (from the old `B` and `S`),
and then `S` from the already-updated `A` and `B` by
`S * (2 A^t X + lam B^t (Y/(eps+BS))) / (eps + 2 A^t A S + lam B^t ones(p,n))`;
when `L` is present it replaces `ones(p,n)` in the denominators and the
`Y/(eps+BS)` term becomes `(L.*Y)/(eps+L.*(BS))`; when `W` is present it
wraps `A S` and `X` in the `A` update and in the `S` update's reconstruction
terms — in all four mask branches. -/
theorem klStep_update_formulas {m n k p : ℕ} (eps : ℚ) (md : Model m n k p)
    (s : SupData n k p) (hs : md.sup = some s) :
    ∃ s', (klStep eps md).sup = some s' ∧ s'.Y = s.Y ∧ s'.lam = s.lam ∧
      (klStep eps md).A = aUpdateSpec eps md.W md.A md.S md.X ∧
      s'.B = bUpdateSpecKL eps md.L s.B md.S s.Y ∧
      (klStep eps md).S = sUpdateSpecKL eps s.lam md.W md.L
        ((klStep eps md).A) s'.B md.S md.X s.Y := by
  obtain ⟨X, A, S, sup, W, L⟩ := md
  have hs' : sup = some s := hs
  subst hs'
  obtain ⟨Y, B, lam⟩ := s
  cases L <;> cases W <;>
    refine ⟨_, rfl, rfl, rfl, ?_, ?_, ?_⟩ <;>
    funext i j <;>
    simp only [klStep, updE, aUpdateSpec, bUpdateSpecKL, sUpdateSpecKL, klYTerm, klMaskDen,
      wrap, matMul_assoc, div_mul_eq_mul_div]

/-- Witness for C3 at a concrete supervised model. -/
theorem klStep_update_formulas_witness :
    ∃ s', (klStep 1 mdlSup).sup = some s' ∧
      s'.Y = (fun _ _ => 1) ∧ s'.lam = 2 ∧
      (klStep 1 mdlSup).A = aUpdateSpec 1 mdlSup.W mdlSup.A mdlSup.S mdlSup.X ∧
      s'.B = bUpdateSpecKL 1 mdlSup.L (fun _ _ => 1) mdlSup.S (fun _ _ => 1) ∧
      (klStep 1 mdlSup).S = sUpdateSpecKL 1 2 mdlSup.W mdlSup.L
        ((klStep 1 mdlSup).A) s'.B mdlSup.S mdlSup.X (fun _ _ => 1) :=
  klStep_update_formulas 1 mdlSup { Y := fun _ _ => 1, B := fun _ _ => 1, lam := 2 } rfl

/-- The concrete unsupervised model of claim C4:
`X = [[1,2],[3,4]]`, `k = 1`, `A = [[1],[1]]`, `S = [[1,1]]`, no `W`. -/
def mdl4 : Model 2 2 1 1 :=
  { X := ![![1, 2], ![3, 4]], A := ![![1], ![1]], S := ![![1, 1]],
    sup := none, W := none, L := none }

/-- C4: one `mult` iteration on the literal model with `eps = 1e-10` produces
exactly the closed-form values of `A * (X S^t) / (eps + A S S^t)` followed by
`S * (A^t X) / (eps + A^t A S)` evaluated at the already-updated `A`; the
final conjuncts give those values as explicit rationals. -/
theorem mult_golden_value :
    ∃ mf, mult mdl4 1 false defaultEps = .ok (mf, none) ∧
      mf.A = aUpdateSpec defaultEps none mdl4.A mdl4.S mdl4.X ∧
      mf.S = (fun i j => mdl4.S i j * matMul (tr mf.A) mdl4.X i j /
        (defaultEps + matMul (tr mf.A) (matMul mf.A mdl4.S) i j)) ∧
      mf.A 0 0 = 10000000000 / 6666666667 ∧
      mf.A 1 0 = 70000000000 / 20000000001 ∧
      mf.S 0 0 = 48000000002400000000000000000000 / 58000000000400000000040000000001 ∧
      mf.S 0 1 = 68000000003400000000000000000000 / 58000000000400000000040000000001 := by
  refine ⟨multStep defaultEps mdl4, rfl, ?_, ?_, ?_, ?_, ?_, ?_⟩
  · funext i j
    simp only [mdl4, multStep, updE, aUpdateSpec, wrap, matMul_assoc, div_mul_eq_mul_div]
  · funext i j
    simp only [mdl4, multStep, updE, matMul_assoc, div_mul_eq_mul_div]
  all_goals
    simp only [mdl4, multStep, updE, matMul, tr, defaultEps, Fin.sum_univ_two,
      Fin.sum_univ_one, Matrix.cons_val_zero, Matrix.cons_val_one, Matrix.head_cons,
      Matrix.head_fin_const]
  all_goals norm_num

/-- C5: on a model constructed without `Y`, each of `snmfmult`, `klsnmfmult`,
`accuracy`, `kldiv` fails with the missing-supervision error, for every
choice of call arguments; the check precedes the update loops, and in this
functional embedding an erroring call yields no updated model, so `A`, `S`
and all other state are unchanged.  `mult` never raises: it succeeds on
every model, supervised or not. -/
theorem missing_supervision_gate {m n k p : ℕ} [NeZero p] (md : Model m n k p)
    (hs : md.sup = none) :
    (∀ (N : ℕ) (sv : Bool) (eps : ℚ), snmfmult md N sv eps = .error .missingSupervision) ∧
    (∀ (N : ℕ) (sv : Bool) (eps : ℚ), klsnmfmult md N sv eps = .error .missingSupervision) ∧
    accuracy md = .error .missingSupervision ∧
    (∀ eps : ℚ, kldiv md eps = .error .missingSupervision) ∧
    (∀ (md' : Model m n k p) (N : ℕ) (sv : Bool) (eps : ℚ), okB (mult md' N sv eps) = true) := by
  refine ⟨?_, ?_, ?_, ?_, ?_⟩
  · intro N sv eps
    simp [snmfmult, hs]
  · intro N sv eps
    simp [klsnmfmult, hs]
  · simp [accuracy, hs]
  · intro eps
    simp [kldiv, hs]
  · intro md' N sv eps
    cases sv <;> rfl

/-- A concrete unsupervised model. -/
def mdlU : Model 1 1 1 1 :=
  { X := fun _ _ => 1, A := fun _ _ => 1, S := fun _ _ => 1,
    sup := none, W := none, L := none }

/-- Witness for C5 at a concrete unsupervised model. -/
theorem missing_supervision_gate_witness :
    (∀ (N : ℕ) (sv : Bool) (eps : ℚ), snmfmult mdlU N sv eps = .error .missingSupervision) ∧
    (∀ (N : ℕ) (sv : Bool) (eps : ℚ), klsnmfmult mdlU N sv eps = .error .missingSupervision) ∧
    accuracy mdlU = .error .missingSupervision ∧
    (∀ eps : ℚ, kldiv mdlU eps = .error .missingSupervision) ∧
    (∀ (md' : Model 1 1 1 1) (N : ℕ) (sv : Bool) (eps : ℚ), okB (mult md' N sv eps) = true) :=
  missing_supervision_gate mdlU rfl

lemma init_ok_iff_check {X : RawMat} {k : ℕ} {A? S? Y? B? W? L? : Option RawMat}
    {lam? : Option ℚ} :
    (∃ mdl, init X k A? S? Y? B? W? L? lam? = .ok mdl) ↔
      initCheck X k A? S? Y? B? W? L? = none := by
  unfold init
  cases initCheck X k A? S? Y? B? W? L? <;> simp

lemma init_error_iff_check {X : RawMat} {k : ℕ} {A? S? Y? B? W? L? : Option RawMat}
    {lam? : Option ℚ} {e : CErr} :
    init X k A? S? Y? B? W? L? lam? = .error e ↔
      initCheck X k A? S? Y? B? W? L? = some e := by
  unfold init
  cases initCheck X k A? S? Y? B? W? L? <;> simp

lemma lCheck_none_iff {Y? L? : Option RawMat} :
    lCheck Y? L? = none ↔
      (match L? with
       | some L => match Y? with
         | some Y => (L.r == Y.r) && (L.c == Y.c)
         | none => false
       | none => true) = true := by
  cases L? <;> cases Y? <;>
    simp only [lCheck] <;> (try split_ifs) <;> simp_all

lemma wlCheck_none_iff {X : RawMat} {Y? W? L? : Option RawMat} :
    wlCheck X Y? W? L? = none ↔
      ((match W? with
        | some W => (W.r == X.r) && (W.c == X.c)
        | none => true) = true ∧ lCheck Y? L? = none) := by
  cases W? <;> simp only [wlCheck] <;> (try split_ifs) <;> simp_all

set_option maxHeartbeats 1000000 in
lemma initCheck_none_iff {X : RawMat} {k : ℕ} {A? S? Y? B? W? L? : Option RawMat} :
    initCheck X k A? S? Y? B? W? L? = none ↔
      shapesOkB X k A? S? Y? B? W? L? = true := by
  cases Y? <;>
    simp only [initCheck, shapesOkB] <;>
    split_ifs <;>
    simp only [wlCheck_none_iff, lCheck_none_iff, Bool.and_eq_true, beq_iff_eq, Bool.and_true,
      Bool.true_and, Bool.and_false, Bool.false_and, not_not, ne_eq, Bool.false_eq_true,
      and_false, false_and, iff_false, not_and, iff_true, and_true, true_and] <;>
    tauto

lemma lCheck_some_class {Y? L? : Option RawMat} {e : CErr} (h : lCheck Y? L? = some e) :
    (∃ msg, e = .dimensionMismatch msg) ∨
      (e = .indexError ∧ Y? = none ∧ L?.isSome = true) := by
  cases L? with
  | none => simp [lCheck] at h
  | some L =>
    cases Y? with
    | none =>
      simp only [lCheck, Option.some_inj] at h
      exact Or.inr ⟨h.symm, rfl, rfl⟩
    | some Y =>
      revert h
      simp only [lCheck]
      split_ifs <;> intro h
      · exact Or.inl ⟨_, (Option.some_injective _ h).symm⟩
      · exact Or.inl ⟨_, (Option.some_injective _ h).symm⟩
      · exact absurd h (by simp)

lemma wlCheck_some_class {X : RawMat} {Y? W? L? : Option RawMat} {e : CErr}
    (h : wlCheck X Y? W? L? = some e) :
    (∃ msg, e = .dimensionMismatch msg) ∨
      (e = .indexError ∧ Y? = none ∧ L?.isSome = true) := by
  cases W? with
  | none => exact lCheck_some_class h
  | some W =>
    revert h
    simp only [wlCheck]
    split_ifs <;> intro h
    · exact Or.inl ⟨_, (Option.some_injective _ h).symm⟩
    · exact Or.inl ⟨_, (Option.some_injective _ h).symm⟩
    · exact lCheck_some_class h

lemma initCheck_some_class {X : RawMat} {k : ℕ} {A? S? Y? B? W? L? : Option RawMat} {e : CErr}
    (h : initCheck X k A? S? Y? B? W? L? = some e) :
    (∃ msg, e = .dimensionMismatch msg) ∨
      (e = .indexError ∧ Y? = none ∧ L?.isSome = true) := by
  revert h
  cases Y? <;>
    (simp only [initCheck]
     split_ifs <;> intro h <;>
       first
         | exact Or.inl ⟨_, (Option.some_injective _ h).symm⟩
         | exact (wlCheck_some_class h).elim Or.inl
             (fun hr => Or.inr ⟨hr.1,
               by first | trivial | exact Option.noConfusion hr.2.1, hr.2.2⟩))

/-- C6 (amended): a construction call succeeds, returning a model, exactly
when all shape invariants hold (including that `L` requires `Y`); every
failing construction returns no model and fails with a dimension-mismatch
error, except that supplying `L` while `Y` is absent — once the checks that
run before it pass — fails with an `IndexError` (from `np.shape(None)[0]`),
not a dimension-mismatch message. -/
theorem init_validates_shapes (X : RawMat) (k : ℕ) (A? S? Y? B? W? L? : Option RawMat)
    (lam? : Option ℚ) :
    ((∃ mdl, init X k A? S? Y? B? W? L? lam? = .ok mdl) ↔
      shapesOkB X k A? S? Y? B? W? L? = true) ∧
    (∀ e, init X k A? S? Y? B? W? L? lam? = .error e →
      (∃ msg, e = .dimensionMismatch msg) ∨
        (e = .indexError ∧ Y? = none ∧ L?.isSome = true)) ∧
    (shapesOkB X k A? S? none B? W? none = true → Y? = none → L?.isSome = true →
      init X k A? S? Y? B? W? L? lam? = .error .indexError) := by
  refine ⟨init_ok_iff_check.trans initCheck_none_iff, ?_, ?_⟩
  · intro e he
    exact initCheck_some_class (init_error_iff_check.mp he)
  · intro hpre hY hL
    subst hY
    obtain ⟨L, rfl⟩ := Option.isSome_iff_exists.mp hL
    rw [init_error_iff_check]
    have hpre' := initCheck_none_iff.mpr hpre
    revert hpre'
    cases W? <;> simp only [initCheck, wlCheck, lCheck] <;> split_ifs <;> intro hx <;>
      (try split_ifs at hx ⊢) <;>
      first
        | rfl
        | exact hx.elim

/-- C6 counterexample: constructing with `L` supplied while `Y` is absent
(all other shapes consistent) fails with the `IndexError`, not with a
dimension-mismatch error as the claim states. -/
theorem init_L_without_Y_counterexample :
    init ⟨1, 1, fun _ _ => 1⟩ 1 none none none none none (some ⟨1, 1, fun _ _ => 1⟩) none =
      .error .indexError ∧
    ∀ msg, CErr.indexError ≠ CErr.dimensionMismatch msg :=
  ⟨rfl, fun _ h => CErr.noConfusion h⟩

/-- Witness for C6 (amended) : a fully consistent construction succeeds, and
the `L`-without-`Y` input from the counterexample indeed reaches the
`IndexError` branch via the theorem's last conjunct. -/
theorem init_validates_shapes_witness :
    (∃ mdl, init ⟨2, 3, fun _ _ => 1⟩ 2 none none (some ⟨4, 3, fun _ _ => 1⟩) none
      (some ⟨2, 3, fun _ _ => 0⟩) (some ⟨4, 3, fun _ _ => 1⟩) (some 1) = .ok mdl) ∧
    init ⟨1, 1, fun _ _ => 1⟩ 1 none none none none none (some ⟨1, 1, fun _ _ => 1⟩) none =
      .error .indexError :=
  ⟨(init_validates_shapes _ 2 none none _ none _ _ (some 1)).1.mpr (by decide),
   (init_validates_shapes _ 1 none none none none none _ none).2.2 (by decide) rfl rfl⟩

lemma argmaxGo_spec {p : ℕ} (v : Fin p → ℚ) :
    ∀ (l : List (Fin p)) (b : Fin p), l.Pairwise (· < ·) → (∀ j ∈ l, b ≤ j) →
      (argmaxGo v l b ∈ b :: l) ∧
      (∀ j ∈ b :: l, v j ≤ v (argmaxGo v l b)) ∧
      (∀ j ∈ b :: l, v (argmaxGo v l b) ≤ v j → argmaxGo v l b ≤ j) := by
  intro l
  induction l with
  | nil =>
    intro b _ _
    refine ⟨List.mem_singleton_self b, ?_, ?_⟩
    · intro j hj
      rw [List.mem_singleton] at hj
      subst hj
      exact le_refl _
    · intro j hj _
      rw [List.mem_singleton] at hj
      subst hj
      exact le_refl _
  | cons i t ih =>
    intro b hp hb
    rw [List.pairwise_cons] at hp
    obtain ⟨hi, hp'⟩ := hp
    have hbi : b ≤ i := hb i (List.mem_cons_self i t)
    have hbt : ∀ j ∈ t, b ≤ j := fun j hj => hb j (List.mem_cons_of_mem i hj)
    by_cases hc : v b < v i
    · have hb' : ∀ j ∈ t, i ≤ j := fun j hj => le_of_lt (hi j hj)
      obtain ⟨m1, m2, m3⟩ := ih i hp' hb'
      simp only [argmaxGo, if_pos hc]
      refine ⟨?_, ?_, ?_⟩
      · rcases List.mem_cons.mp m1 with h | h
        · exact List.mem_cons_of_mem b (List.mem_cons.mpr (Or.inl h))
        · exact List.mem_cons_of_mem b (List.mem_cons_of_mem i h)
      · intro j hj
        rcases List.mem_cons.mp hj with rfl | hj'
        · exact le_trans (le_of_lt hc) (m2 i (List.mem_cons_self i t))
        · exact m2 j hj'
      · intro j hj hle
        rcases List.mem_cons.mp hj with rfl | hj'
        · exact absurd (lt_of_lt_of_le hc (m2 i (List.mem_cons_self i t)))
            (not_lt.mpr hle)
        · exact m3 j hj' hle
    · have hvi : v i ≤ v b := not_lt.mp hc
      obtain ⟨m1, m2, m3⟩ := ih b hp' hbt
      simp only [argmaxGo, if_neg hc]
      refine ⟨?_, ?_, ?_⟩
      · rcases List.mem_cons.mp m1 with h | h
        · exact List.mem_cons.mpr (Or.inl h)
        · exact List.mem_cons_of_mem b (List.mem_cons_of_mem i h)
      · intro j hj
        rcases List.mem_cons.mp hj with rfl | hj'
        · exact m2 _ (List.mem_cons_self _ t)
        rcases List.mem_cons.mp hj' with rfl | hj''
        · exact le_trans hvi (m2 b (List.mem_cons_self b t))
        · exact m2 j (List.mem_cons_of_mem b hj'')
      · intro j hj hle
        rcases List.mem_cons.mp hj with rfl | hj'
        · exact m3 _ (List.mem_cons_self _ t) hle
        rcases List.mem_cons.mp hj' with rfl | hj''
        · exact le_trans (m3 b (List.mem_cons_self b t) (le_trans hle hvi)) hbi
        · exact m3 j (List.mem_cons_of_mem b hj'') hle

/-- `np.argmax` attains the maximum. -/
lemma npArgmax_is_max {p : ℕ} [NeZero p] (v : Fin p → ℚ) (j : Fin p) :
    v j ≤ v (npArgmax v) :=
  (argmaxGo_spec v (List.finRange p) ⟨0, Nat.pos_of_ne_zero (NeZero.ne p)⟩
    (List.pairwise_lt_finRange p)
    (fun j _ => Fin.le_def.mpr (Nat.zero_le _))).2.1 j
    (List.mem_cons_of_mem _ (List.mem_finRange j))

/-- `np.argmax` is the least index among the maximizers (first occurrence). -/
lemma npArgmax_min_of_max {p : ℕ} [NeZero p] (v : Fin p → ℚ) (j : Fin p)
    (h : v (npArgmax v) ≤ v j) : npArgmax v ≤ j :=
  (argmaxGo_spec v (List.finRange p) ⟨0, Nat.pos_of_ne_zero (NeZero.ne p)⟩
    (List.pairwise_lt_finRange p)
    (fun j _ => Fin.le_def.mpr (Nat.zero_le _))).2.2 j
    (List.mem_cons_of_mem _ (List.mem_finRange j)) h

/-- The set of indices attaining the maximum of a vector. -/
def maximizers {p : ℕ} (v : Fin p → ℚ) : Finset (Fin p) :=
  Finset.univ.filter (fun j => ∀ i, v i ≤ v j)

lemma maximizers_nonempty {p : ℕ} [NeZero p] (v : Fin p → ℚ) : (maximizers v).Nonempty :=
  ⟨npArgmax v, Finset.mem_filter.mpr ⟨Finset.mem_univ _, npArgmax_is_max v⟩⟩

/-- Specification-side argmax: the lowest index among the maxima
(first-occurrence convention). -/
def specArgmax {p : ℕ} [NeZero p] (v : Fin p → ℚ) : Fin p :=
  (maximizers v).min' (maximizers_nonempty v)

/-- The operational `np.argmax` fold equals the first-occurrence
specification: the least index attaining the maximum. -/
lemma npArgmax_eq_specArgmax {p : ℕ} [NeZero p] (v : Fin p → ℚ) :
    npArgmax v = specArgmax v := by
  have hmem : npArgmax v ∈ maximizers v :=
    Finset.mem_filter.mpr ⟨Finset.mem_univ _, npArgmax_is_max v⟩
  have hspec : specArgmax v ∈ maximizers v :=
    (maximizers v).min'_mem (maximizers_nonempty v)
  have hmax : ∀ i, v i ≤ v (specArgmax v) := (Finset.mem_filter.mp hspec).2
  exact le_antisymm (npArgmax_min_of_max v _ (hmax _))
    ((maximizers v).min'_le _ hmem)

/-- The argmax of an all-zero column is index `0`. -/
lemma npArgmax_of_all_zero {p : ℕ} [NeZero p] (v : Fin p → ℚ) (h : ∀ r, v r = 0) :
    npArgmax v = 0 := by
  have h0 : v (npArgmax v) ≤ v 0 := by rw [h, h]
  exact le_antisymm (npArgmax_min_of_max v 0 h0) (Fin.zero_le' _)

/-- `specArgmax` of an all-zero column is index `0`. -/
lemma specArgmax_of_all_zero {p : ℕ} [NeZero p] (v : Fin p → ℚ) (h : ∀ r, v r = 0) :
    specArgmax v = 0 := npArgmax_eq_specArgmax v ▸ npArgmax_of_all_zero v h

/-- C7: with `Y` and `L` present, `accuracy` compares, per column, the
first-occurrence argmax (the least index attaining the maximum, here
`specArgmax`) of `(L.*Y)[:,i]` with that of `(L.*(B S))[:,i]`; a column is
counted in the numerator exactly when the indices agree and the matched
entry of `L.*Y` is nonzero, is removed from the denominator (initially `n`)
exactly when the indices agree on a zero matched entry, and otherwise counts
in the denominator only; the result is the numerator over the adjusted
denominator (a zero adjusted denominator raises). -/
theorem accuracy_with_L_formula {m n k p : ℕ} [NeZero p] (md : Model m n k p)
    (s : SupData n k p) (L : Mat p n) (hs : md.sup = some s) (hL : md.L = some L) :
    accuracy md =
      (if n - (Finset.univ.filter (fun i : Fin n =>
            specArgmax (fun r => had L s.Y r i) =
              specArgmax (fun r => had L (matMul s.B md.S) r i) ∧
            had L s.Y (specArgmax (fun r => had L s.Y r i)) i = 0)).card = 0
       then .error .zeroDivision
       else .ok (((Finset.univ.filter (fun i : Fin n =>
            specArgmax (fun r => had L s.Y r i) =
              specArgmax (fun r => had L (matMul s.B md.S) r i) ∧
            had L s.Y (specArgmax (fun r => had L s.Y r i)) i ≠ 0)).card : ℚ) /
          ((n - (Finset.univ.filter (fun i : Fin n =>
            specArgmax (fun r => had L s.Y r i) =
              specArgmax (fun r => had L (matMul s.B md.S) r i) ∧
            had L s.Y (specArgmax (fun r => had L s.Y r i)) i = 0)).card : ℕ) : ℚ))) := by
  simp only [accuracy, hs, hL, npArgmax_eq_specArgmax]

/-- The all-ones and all-zeros 1-by-1 matrices, for witnesses. -/
def one11 : Mat 1 1 := fun _ _ => 1

/-- The all-zeros 1-by-1 matrix. -/
def zero11 : Mat 1 1 := fun _ _ => 0

/-- Witness for C7 at a concrete supervised model with `L` present. -/
theorem accuracy_with_L_formula_witness :
    accuracy mdlSup =
      (if 1 - (Finset.univ.filter (fun i : Fin 1 =>
            specArgmax (fun r => had one11 one11 r i) =
              specArgmax (fun r => had one11 (matMul one11 mdlSup.S) r i) ∧
            had one11 one11 (specArgmax (fun r => had one11 one11 r i)) i = 0)).card = 0
       then .error .zeroDivision
       else .ok (((Finset.univ.filter (fun i : Fin 1 =>
            specArgmax (fun r => had one11 one11 r i) =
              specArgmax (fun r => had one11 (matMul one11 mdlSup.S) r i) ∧
            had one11 one11 (specArgmax (fun r => had one11 one11 r i)) i ≠ 0)).card : ℚ) /
          ((1 - (Finset.univ.filter (fun i : Fin 1 =>
            specArgmax (fun r => had one11 one11 r i) =
              specArgmax (fun r => had one11 (matMul one11 mdlSup.S) r i) ∧
            had one11 one11 (specArgmax (fun r => had one11 one11 r i)) i = 0)).card : ℕ) : ℚ))) :=
  accuracy_with_L_formula mdlSup { Y := one11, B := one11, lam := 2 } one11 rfl rfl

/-- A concrete supervised model without masks whose label column is all
zero. -/
def mdlNoL : Model 1 1 1 1 :=
  { X := fun _ _ => 1, A := fun _ _ => 1, S := fun _ _ => 1,
    sup := some { Y := fun _ _ => 0, B := fun _ _ => 1, lam := 1 },
    W := none, L := none }

/-- C10: with `Y` present and `L` absent, a column is counted as correctly
classified exactly when the first-occurrence argmax of `Y[:,i]` equals that
of `(B S)[:,i]`; and a column of `Y` that is entirely zero has argmax `0`,
so it counts exactly when the argmax of the corresponding `B S` column is
row `0`. -/
theorem accuracy_no_L_formula {m n k p : ℕ} [NeZero p] (md : Model m n k p)
    (s : SupData n k p) (hs : md.sup = some s) (hL : md.L = none) (hn : n ≠ 0) :
    accuracy md = .ok (((Finset.univ.filter (fun i : Fin n =>
        specArgmax (fun r => s.Y r i) =
          specArgmax (fun r => matMul s.B md.S r i))).card : ℚ) / (n : ℚ)) ∧
    ∀ i : Fin n, (∀ r, s.Y r i = 0) →
      specArgmax (fun r => s.Y r i) = 0 ∧
        ((specArgmax (fun r => s.Y r i) = specArgmax (fun r => matMul s.B md.S r i)) ↔
          specArgmax (fun r => matMul s.B md.S r i) = 0) := by
  constructor
  · simp only [accuracy, hs, hL, npArgmax_eq_specArgmax, if_neg hn]
  · intro i hz
    have h0 : specArgmax (fun r => s.Y r i) = 0 := specArgmax_of_all_zero _ hz
    refine ⟨h0, ?_⟩
    rw [h0]
    exact eq_comm

/-- Witness for C10 at a concrete supervised model without `L`. -/
theorem accuracy_no_L_formula_witness :
    accuracy mdlNoL = .ok (((Finset.univ.filter (fun i : Fin 1 =>
        specArgmax (fun r => zero11 r i) =
          specArgmax (fun r => matMul one11 mdlNoL.S r i))).card : ℚ) / ((1 : ℕ) : ℚ)) ∧
    ∀ i : Fin 1, (∀ r, zero11 r i = 0) →
      specArgmax (fun r => zero11 r i) = 0 ∧
        ((specArgmax (fun r => zero11 r i) =
            specArgmax (fun r => matMul one11 mdlNoL.S r i)) ↔
          specArgmax (fun r => matMul one11 mdlNoL.S r i) = 0) :=
  accuracy_no_L_formula mdlNoL { Y := zero11, B := one11, lam := 1 } rfl rfl one_ne_zero

/-- C8 (amended): whenever `accuracy` succeeds, the returned value lies in
`[0, 1]`; but the division by the adjusted denominator is not always
defined — see the counterexample where every column is excluded. -/
theorem accuracy_range {m n k p : ℕ} [NeZero p] (md : Model m n k p) (q : ℚ)
    (h : accuracy md = .ok q) : 0 ≤ q ∧ q ≤ 1 := by
  revert h
  rcases md with ⟨X, A, S, sup, W, L⟩
  cases sup with
  | none => intro h; exact absurd h (by simp [accuracy])
  | some s =>
    cases L with
    | none =>
      simp only [accuracy]
      split_ifs with hn
      · intro h; exact absurd h (by simp)
      · intro h
        have hq := (Except.ok.inj h).symm
        subst hq
        have hcard : (Finset.univ.filter (fun i : Fin n =>
            npArgmax (fun r => s.Y r i) = npArgmax (fun r => matMul s.B S r i))).card ≤ n := by
          calc _ ≤ (Finset.univ : Finset (Fin n)).card := Finset.card_filter_le _ _
            _ = n := by rw [Finset.card_univ, Fintype.card_fin]
        have hnpos : (0 : ℚ) < (n : ℚ) := by
          exact_mod_cast Nat.pos_of_ne_zero hn
        constructor
        · exact div_nonneg (by positivity) (le_of_lt hnpos)
        · rw [div_le_one hnpos]
          exact_mod_cast hcard
    | some L =>
      simp only [accuracy]
      split_ifs with hd
      · intro h; exact absurd h (by simp)
      · intro h
        have hq := (Except.ok.inj h).symm
        subst hq
        set f1 := Finset.univ.filter (fun i : Fin n =>
          (npArgmax (fun r => had L s.Y r i) =
            npArgmax (fun r => had L (matMul s.B S) r i)) ∧
          had L s.Y (npArgmax (fun r => had L s.Y r i)) i ≠ 0) with hf1
        set f2 := Finset.univ.filter (fun i : Fin n =>
          (npArgmax (fun r => had L s.Y r i) =
            npArgmax (fun r => had L (matMul s.B S) r i)) ∧
          had L s.Y (npArgmax (fun r => had L s.Y r i)) i = 0) with hf2
        have hdisj : Disjoint f1 f2 := by
          rw [Finset.disjoint_left]
          intro x hx1 hx2
          exact ((Finset.mem_filter.mp hx1).2.2) ((Finset.mem_filter.mp hx2).2.2)
        have hsum : f1.card + f2.card ≤ n := by
          have hu : (f1 ∪ f2).card ≤ n := by
            calc (f1 ∪ f2).card ≤ (Finset.univ : Finset (Fin n)).card :=
                Finset.card_le_univ _
              _ = n := by rw [Finset.card_univ, Fintype.card_fin]
          rw [← Finset.card_union_of_disjoint hdisj]
          exact hu
        have hle : f1.card ≤ n - f2.card := by omega
        have hdpos : 0 < n - f2.card := Nat.pos_of_ne_zero hd
        have hdq : (0 : ℚ) < ((n - f2.card : ℕ) : ℚ) := by exact_mod_cast hdpos
        constructor
        · exact div_nonneg (by positivity) (le_of_lt hdq)
        · rw [div_le_one hdq]
          exact_mod_cast hle

/-- The supervised model whose label mask `L` is identically zero: every
column's argmaxes agree on a zero matched entry, so every column is excluded
from the denominator. -/
def mdlL0 : Model 1 1 1 1 :=
  { X := fun _ _ => 1, A := fun _ _ => 1, S := fun _ _ => 1,
    sup := some { Y := fun _ _ => 1, B := fun _ _ => 1, lam := 1 },
    W := none, L := some (fun _ _ => 0) }

/-- On any supervised model whose label mask is identically zero (and with at
least one column), every column's argmaxes agree on a zero matched entry, so
every column is excluded and `accuracy` divides by zero. -/
lemma accuracy_zero_L {m n k p : ℕ} [NeZero p] (md : Model m n k p) (s : SupData n k p)
    (hs : md.sup = some s) (hL : md.L = some (fun _ _ => 0)) :
    accuracy md = .error .zeroDivision := by
  simp only [accuracy, hs, hL]
  have hz : ∀ (M : Mat p n) (r : Fin p) (i : Fin n), had (fun _ _ => 0) M r i = 0 := by
    intro M r i
    simp [had]
  have hP : ∀ i : Fin n,
      (npArgmax (fun r => had (fun _ _ => 0) s.Y r i) =
        npArgmax (fun r => had (fun _ _ => 0) (matMul s.B md.S) r i)) ∧
      had (fun _ _ => 0) s.Y (npArgmax (fun r => had (fun _ _ => 0) s.Y r i)) i = 0 := by
    intro i
    constructor
    · rw [npArgmax_of_all_zero _ (fun r => hz _ r i),
        npArgmax_of_all_zero _ (fun r => hz _ r i)]
    · exact hz _ _ i
  rw [Finset.filter_true_of_mem (fun i _ => hP i), Finset.card_univ, Fintype.card_fin,
    Nat.sub_self]
  simp

/-- C8 counterexample: on `mdlL0` the adjusted denominator reaches zero and
`accuracy` divides by zero (raising), contradicting the claim that the
division never divides by zero. -/
theorem accuracy_divides_by_zero_counterexample :
    accuracy mdlL0 = .error .zeroDivision :=
  accuracy_zero_L mdlL0 { Y := one11, B := one11, lam := 1 } rfl rfl

/-- Witness for C8 at a concrete model on which `accuracy` succeeds. -/
theorem accuracy_range_witness :
    ∃ q, accuracy mdlNoL = .ok q ∧ 0 ≤ q ∧ q ≤ 1 := by
  have h : accuracy mdlNoL = .ok (((1 : ℕ) : ℚ) / ((1 : ℕ) : ℚ)) := by
    simp only [accuracy, mdlNoL]
    rw [Finset.filter_true_of_mem (fun i _ => Subsingleton.elim _ _)]
    simp [Finset.card_univ]
  exact ⟨_, h, accuracy_range mdlNoL _ h⟩

lemma okB_eq_true {ε α : Type} {x : Except ε α} (h : okB x = true) : ∃ a, x = .ok a := by
  cases x with
  | ok a => exact ⟨a, rfl⟩
  | error e => exact absurd h (by simp [okB])

lemma multErrs_spec {m n k p : ℕ} (eps : ℚ) :
    ∀ (N : ℕ) (md : Model m n k p),
      (multErrs eps N md).1 = (multStep eps)^[N] md ∧
      (multErrs eps N md).2.length = N ∧
      ∀ i, i < N → (multErrs eps N md).2[i]? =
        some (reconErrM ((multStep eps)^[i + 1] md)) := by
  intro N
  induction N with
  | zero => exact fun md => ⟨rfl, rfl, fun i hi => absurd hi (Nat.not_lt_zero i)⟩
  | succ nn ih =>
    intro md
    obtain ⟨h1, h2, h3⟩ := ih (multStep eps md)
    refine ⟨?_, ?_, ?_⟩
    · show (multErrs eps nn (multStep eps md)).1 = _
      rw [h1, ← Function.iterate_succ_apply]
    · show (reconErrM (multStep eps md) :: (multErrs eps nn (multStep eps md)).2).length = nn + 1
      rw [List.length_cons, h2]
    · intro i hi
      cases i with
      | zero =>
        show (reconErrM (multStep eps md) :: (multErrs eps nn (multStep eps md)).2)[0]? = _
        rw [List.getElem?_cons_zero, Function.iterate_one]
      | succ j =>
        show (reconErrM (multStep eps md) ::
          (multErrs eps nn (multStep eps md)).2)[j + 1]? = _
        rw [List.getElem?_cons_succ, h3 j (by omega), ← Function.iterate_succ_apply]

lemma snmfErrs_spec {m n k p : ℕ} [NeZero p] (eps : ℚ) :
    ∀ (N : ℕ) (md : Model m n k p),
      (∀ i, i < N → okB (accuracy ((snmfStep eps)^[i + 1] md)) = true) →
      ∃ es rs cs ws,
        snmfErrs eps N md = .ok ((snmfStep eps)^[N] md, (es, rs, cs, ws)) ∧
        es.length = N ∧ rs.length = N ∧ cs.length = N ∧ ws.length = N ∧
        ∀ i, i < N →
          es[i]? = some (reconErrM ((snmfStep eps)^[i + 1] md) ^ 2 +
            (lamM ((snmfStep eps)^[i + 1] md) : ℝ) *
              classErrM ((snmfStep eps)^[i + 1] md) ^ 2) ∧
          rs[i]? = some (reconErrM ((snmfStep eps)^[i + 1] md)) ∧
          cs[i]? = some (classErrM ((snmfStep eps)^[i + 1] md)) ∧
          ∃ a, accuracy ((snmfStep eps)^[i + 1] md) = .ok a ∧
            ws[i]? = some ((a : ℚ) : ℝ) := by
  intro N
  induction N with
  | zero =>
    exact fun md _ => ⟨[], [], [], [], rfl, rfl, rfl, rfl, rfl,
      fun i hi => absurd hi (Nat.not_lt_zero i)⟩
  | succ nn ih =>
    intro md hacc
    have ha0 := okB_eq_true (hacc 0 (Nat.succ_pos nn))
    rw [Function.iterate_one] at ha0
    obtain ⟨a, ha⟩ := ha0
    have hshift : ∀ i, i < nn →
        okB (accuracy ((snmfStep eps)^[i + 1] (snmfStep eps md))) = true := by
      intro i hi
      rw [← Function.iterate_succ_apply]
      exact hacc (i + 1) (by omega)
    obtain ⟨es, rs, cs, ws, heq, hle, hlr, hlc, hlw, hidx⟩ := ih (snmfStep eps md) hshift
    have hstep : snmfErrs eps (nn + 1) md =
        .ok ((snmfStep eps)^[nn] (snmfStep eps md),
          ((reconErrM (snmfStep eps md) ^ 2 + (lamM (snmfStep eps md) : ℝ) *
              classErrM (snmfStep eps md) ^ 2) :: es,
            reconErrM (snmfStep eps md) :: rs, classErrM (snmfStep eps md) :: cs,
            ((a : ℚ) : ℝ) :: ws)) := by
      simp only [snmfErrs]
      rw [ha, heq]
    refine ⟨(reconErrM (snmfStep eps md) ^ 2 + (lamM (snmfStep eps md) : ℝ) *
        classErrM (snmfStep eps md) ^ 2) :: es,
      reconErrM (snmfStep eps md) :: rs, classErrM (snmfStep eps md) :: cs,
      ((a : ℚ) : ℝ) :: ws, ?_, ?_, ?_, ?_, ?_, ?_⟩
    · rw [hstep, ← Function.iterate_succ_apply]
    · rw [List.length_cons, hle]
    · rw [List.length_cons, hlr]
    · rw [List.length_cons, hlc]
    · rw [List.length_cons, hlw]
    · intro i hi
      cases i with
      | zero =>
        rw [Function.iterate_one]
        exact ⟨List.getElem?_cons_zero, List.getElem?_cons_zero, List.getElem?_cons_zero,
          a, ha, List.getElem?_cons_zero⟩
      | succ j =>
        have hj := hidx j (by omega)
        rw [← Function.iterate_succ_apply] at hj
        exact ⟨by rw [List.getElem?_cons_succ]; exact hj.1,
          by rw [List.getElem?_cons_succ]; exact hj.2.1,
          by rw [List.getElem?_cons_succ]; exact hj.2.2.1,
          by
            obtain ⟨b, hb1, hb2⟩ := hj.2.2.2
            exact ⟨b, hb1, by rw [List.getElem?_cons_succ]; exact hb2⟩⟩

lemma klErrs_spec {m n k p : ℕ} [NeZero p] (eps : ℚ) :
    ∀ (N : ℕ) (md : Model m n k p),
      (∀ i, i < N → okB (accuracy ((klStep eps)^[i + 1] md)) = true) →
      ∃ es rs cs ws,
        klErrs eps N md = .ok ((klStep eps)^[N] md, (es, rs, cs, ws)) ∧
        es.length = N ∧ rs.length = N ∧ cs.length = N ∧ ws.length = N ∧
        ∀ i, i < N →
          es[i]? = some (reconErrM ((klStep eps)^[i + 1] md) ^ 2 +
            (lamM ((klStep eps)^[i + 1] md) : ℝ) * kldivVM ((klStep eps)^[i + 1] md)) ∧
          rs[i]? = some (reconErrM ((klStep eps)^[i + 1] md)) ∧
          cs[i]? = some (kldivVM ((klStep eps)^[i + 1] md)) ∧
          ∃ a, accuracy ((klStep eps)^[i + 1] md) = .ok a ∧
            ws[i]? = some ((a : ℚ) : ℝ) := by
  intro N
  induction N with
  | zero =>
    exact fun md _ => ⟨[], [], [], [], rfl, rfl, rfl, rfl, rfl,
      fun i hi => absurd hi (Nat.not_lt_zero i)⟩
  | succ nn ih =>
    intro md hacc
    have ha0 := okB_eq_true (hacc 0 (Nat.succ_pos nn))
    rw [Function.iterate_one] at ha0
    obtain ⟨a, ha⟩ := ha0
    have hshift : ∀ i, i < nn →
        okB (accuracy ((klStep eps)^[i + 1] (klStep eps md))) = true := by
      intro i hi
      rw [← Function.iterate_succ_apply]
      exact hacc (i + 1) (by omega)
    obtain ⟨es, rs, cs, ws, heq, hle, hlr, hlc, hlw, hidx⟩ := ih (klStep eps md) hshift
    have hstep : klErrs eps (nn + 1) md =
        .ok ((klStep eps)^[nn] (klStep eps md),
          ((reconErrM (klStep eps md) ^ 2 + (lamM (klStep eps md) : ℝ) *
              kldivVM (klStep eps md)) :: es,
            reconErrM (klStep eps md) :: rs, kldivVM (klStep eps md) :: cs,
            ((a : ℚ) : ℝ) :: ws)) := by
      simp only [klErrs]
      rw [ha, heq]
    refine ⟨(reconErrM (klStep eps md) ^ 2 + (lamM (klStep eps md) : ℝ) *
        kldivVM (klStep eps md)) :: es,
      reconErrM (klStep eps md) :: rs, kldivVM (klStep eps md) :: cs,
      ((a : ℚ) : ℝ) :: ws, ?_, ?_, ?_, ?_, ?_, ?_⟩
    · rw [hstep, ← Function.iterate_succ_apply]
    · rw [List.length_cons, hle]
    · rw [List.length_cons, hlr]
    · rw [List.length_cons, hlc]
    · rw [List.length_cons, hlw]
    · intro i hi
      cases i with
      | zero =>
        rw [Function.iterate_one]
        exact ⟨List.getElem?_cons_zero, List.getElem?_cons_zero, List.getElem?_cons_zero,
          a, ha, List.getElem?_cons_zero⟩
      | succ j =>
        have hj := hidx j (by omega)
        rw [← Function.iterate_succ_apply] at hj
        exact ⟨by rw [List.getElem?_cons_succ]; exact hj.1,
          by rw [List.getElem?_cons_succ]; exact hj.2.1,
          by rw [List.getElem?_cons_succ]; exact hj.2.2.1,
          by
            obtain ⟨b, hb1, hb2⟩ := hj.2.2.2
            exact ⟨b, hb1, by rw [List.getElem?_cons_succ]; exact hb2⟩⟩

/-- C9 (amended): with `saveerrs` true and `numiters = N`, `mult` returns
exactly one sequence (reconstruction error) of length `N`, and — provided
every per-iteration `accuracy()` computation succeeds — `snmfmult` and
`klsnmfmult` each return exactly four sequences of length `N` in the order
combined objective, reconstruction error, classification error (or
divergence), classification accuracy, where index `i` holds the metric
computed from the state after iteration `i`'s updates; with `saveerrs`
false, no sequence is returned. -/
theorem saveerrs_sequences {m n k p : ℕ} [NeZero p] (eps : ℚ) (N : ℕ)
    (md : Model m n k p) (s : SupData n k p) (hs : md.sup = some s)
    (haccS : ∀ i, i < N → okB (accuracy ((snmfStep eps)^[i + 1] md)) = true)
    (haccK : ∀ i, i < N → okB (accuracy ((klStep eps)^[i + 1] md)) = true) :
    (∃ l : List ℝ, mult md N true eps = .ok ((multStep eps)^[N] md, some [l]) ∧
      l.length = N ∧
      ∀ i, i < N → l[i]? = some (reconErrM ((multStep eps)^[i + 1] md))) ∧
    mult md N false eps = .ok ((multStep eps)^[N] md, none) ∧
    (∃ es rs cs ws, snmfmult md N true eps =
        .ok ((snmfStep eps)^[N] md, some [es, rs, cs, ws]) ∧
      es.length = N ∧ rs.length = N ∧ cs.length = N ∧ ws.length = N ∧
      ∀ i, i < N →
        es[i]? = some (reconErrM ((snmfStep eps)^[i + 1] md) ^ 2 +
          (lamM ((snmfStep eps)^[i + 1] md) : ℝ) *
            classErrM ((snmfStep eps)^[i + 1] md) ^ 2) ∧
        rs[i]? = some (reconErrM ((snmfStep eps)^[i + 1] md)) ∧
        cs[i]? = some (classErrM ((snmfStep eps)^[i + 1] md)) ∧
        ∃ a, accuracy ((snmfStep eps)^[i + 1] md) = .ok a ∧
          ws[i]? = some ((a : ℚ) : ℝ)) ∧
    snmfmult md N false eps = .ok ((snmfStep eps)^[N] md, none) ∧
    (∃ es rs cs ws, klsnmfmult md N true eps =
        .ok ((klStep eps)^[N] md, some [es, rs, cs, ws]) ∧
      es.length = N ∧ rs.length = N ∧ cs.length = N ∧ ws.length = N ∧
      ∀ i, i < N →
        es[i]? = some (reconErrM ((klStep eps)^[i + 1] md) ^ 2 +
          (lamM ((klStep eps)^[i + 1] md) : ℝ) * kldivVM ((klStep eps)^[i + 1] md)) ∧
        rs[i]? = some (reconErrM ((klStep eps)^[i + 1] md)) ∧
        cs[i]? = some (kldivVM ((klStep eps)^[i + 1] md)) ∧
        ∃ a, accuracy ((klStep eps)^[i + 1] md) = .ok a ∧
          ws[i]? = some ((a : ℚ) : ℝ)) ∧
    klsnmfmult md N false eps = .ok ((klStep eps)^[N] md, none) := by
  obtain ⟨hm1, hm2, hm3⟩ := multErrs_spec eps N md
  obtain ⟨es, rs, cs, ws, hseq, hsl1, hsl2, hsl3, hsl4, hsidx⟩ := snmfErrs_spec eps N md haccS
  obtain ⟨es', rs', cs', ws', hkeq, hkl1, hkl2, hkl3, hkl4, hkidx⟩ :=
    klErrs_spec eps N md haccK
  refine ⟨⟨(multErrs eps N md).2, ?_, hm2, hm3⟩, ?_, ⟨es, rs, cs, ws, ?_,
    hsl1, hsl2, hsl3, hsl4, hsidx⟩, ?_, ⟨es', rs', cs', ws', ?_,
    hkl1, hkl2, hkl3, hkl4, hkidx⟩, ?_⟩
  · simp [mult, hm1]
  · simp [mult]
  · simp [snmfmult, hs, hseq, Except.map]
  · simp [snmfmult, hs]
  · simp [klsnmfmult, hs, hkeq, Except.map]
  · simp [klsnmfmult, hs]

/-- Witness for C9 (amended), projecting the `snmfmult` conjunct at a
concrete supervised model; the per-iteration accuracy hypotheses are
discharged by reduction. -/
theorem saveerrs_sequences_witness :
    ∃ es rs cs ws, snmfmult mdlNoL 1 true 1 =
        .ok ((snmfStep 1)^[1] mdlNoL, some [es, rs, cs, ws]) ∧
      es.length = 1 ∧ rs.length = 1 ∧ cs.length = 1 ∧ ws.length = 1 ∧
      ∀ i, i < 1 →
        es[i]? = some (reconErrM ((snmfStep 1)^[i + 1] mdlNoL) ^ 2 +
          (lamM ((snmfStep 1)^[i + 1] mdlNoL) : ℝ) *
            classErrM ((snmfStep 1)^[i + 1] mdlNoL) ^ 2) ∧
        rs[i]? = some (reconErrM ((snmfStep 1)^[i + 1] mdlNoL)) ∧
        cs[i]? = some (classErrM ((snmfStep 1)^[i + 1] mdlNoL)) ∧
        ∃ a, accuracy ((snmfStep 1)^[i + 1] mdlNoL) = .ok a ∧
          ws[i]? = some ((a : ℚ) : ℝ) :=
  (saveerrs_sequences 1 1 mdlNoL { Y := zero11, B := one11, lam := 1 } rfl
    (fun i hi => by
      have hi0 : i = 0 := Nat.lt_one_iff.mp hi
      subst hi0
      rfl)
    (fun i hi => by
      have hi0 : i = 0 := Nat.lt_one_iff.mp hi
      subst hi0
      rfl)).2.2.1

/-- C9 counterexample: on the all-zero label mask model `mdlL0`, a
`saveerrs` training call fails with the zero-division error from its first
per-iteration `accuracy()` call and returns no sequences at all. -/
theorem saveerrs_zero_mask_counterexample :
    snmfmult mdlL0 1 true 1 = .error .zeroDivision ∧
    klsnmfmult mdlL0 1 true 1 = .error .zeroDivision := by
  have haS : accuracy (snmfStep 1 mdlL0) = .error .zeroDivision :=
    accuracy_zero_L _ _ rfl rfl
  have haK : accuracy (klStep 1 mdlL0) = .error .zeroDivision :=
    accuracy_zero_L _ _ rfl rfl
  constructor
  · show (snmfErrs 1 1 mdlL0).map _ = _
    simp only [snmfErrs]
    rw [haS]
    rfl
  · show (klErrs 1 1 mdlL0).map _ = _
    simp only [klErrs]
    rw [haK]
    rfl

end SSNMF
